import Mathlib

/-!
Verification of the semantic-memory engine of `ai-agent-semantic-memory`.

The TypeScript sources are shallowly embedded: JavaScript numbers are
modelled as rationals (`ℚ`), JS arrays as `List`, the stable
`Array.prototype.sort` as a stable insertion sort, and JS `Map` as an
association list in insertion order.  The external providers (embedding
model, chat model, vector index) are black boxes and appear as function
parameters; fallible calls are modelled with `Except`.
-/

set_option maxHeartbeats 1000000

/-! ## Data model (src/types/index.ts) -/

inductive MemoryType where
  | conversation
  | extracted_fact
  | preference
  | sentiment
  | event
deriving DecidableEq, Repr

inductive MemoryCategory where
  | bug_report
  | feature_request
  | question
  | feedback
  | technical
  | general
deriving DecidableEq, Repr

/-- The open `metadata` map, restricted to the keys the engine reads or
writes (`extractedFrom`, `originalMessage`, `confidence`,
`replacedMemoryId`, `replacedAt`). -/
structure MetaData where
  extractedFrom : Option String
  originalMessage : Option String
  confidence : Option ℚ
  replacedMemoryId : Option Nat
  replacedAt : Option ℚ
deriving DecidableEq, Repr

def MetaData.empty : MetaData :=
  { extractedFrom := none, originalMessage := none, confidence := none,
    replacedMemoryId := none, replacedAt := none }

/-- A stored memory record.  Ids are modelled as naturals drawn from a
counter (the source uses `uuidv4()`, an opaque fresh-id generator). -/
structure Memory where
  id : Nat
  userId : String
  content : String
  type : MemoryType
  category : MemoryCategory
  timestamp : ℚ
  sessionId : Option String
  importance : ℚ
  relevance : Option ℚ
  metadata : MetaData
deriving DecidableEq, Repr

/-- A search hit: memory plus distance and `relevance = 1 - distance`. -/
structure SearchResult where
  memory : Memory
  distance : ℚ
  relevance : ℚ
deriving DecidableEq, Repr

/-- A re-ranked search hit (`{...result, compositeScore}`). -/
structure ScoredResult where
  result : SearchResult
  compositeScore : ℚ
deriving DecidableEq, Repr

/-! ## Stable descending sort

`Array.prototype.sort` with comparator `(a, b) => keyB - keyA` is a
stable sort placing larger keys first; equal keys keep their original
relative order (ECMAScript guarantees stability).  We model it with a
stable insertion sort. -/

def insertDesc {α : Type} (key : α → ℚ) (x : α) : List α → List α
  | [] => [x]
  | y :: l => if key x < key y then y :: insertDesc key x l else x :: y :: l

def sortDesc {α : Type} (key : α → ℚ) : List α → List α
  | [] => []
  | x :: l => insertDesc key x (sortDesc key l)

theorem insertDesc_eq_takeWhile {α : Type} (key : α → ℚ) (x : α) (l : List α) :
    insertDesc key x l =
      l.takeWhile (fun y => decide (key x < key y)) ++
        x :: l.dropWhile (fun y => decide (key x < key y)) := by
  induction l with
  | nil => simp [insertDesc]
  | cons y t ih =>
    by_cases h : key x < key y
    · simp [insertDesc, h, List.takeWhile_cons, List.dropWhile_cons, ih]
    · simp [insertDesc, h, List.takeWhile_cons, List.dropWhile_cons]

theorem mem_insertDesc {α : Type} {key : α → ℚ} {x a : α} {l : List α} :
    a ∈ insertDesc key x l ↔ a = x ∨ a ∈ l := by
  induction l with
  | nil => simp [insertDesc]
  | cons y t ih =>
    by_cases h : key x < key y
    · simp [insertDesc, h, ih]
      try tauto
    · simp [insertDesc, h]
      try tauto

theorem mem_sortDesc {α : Type} {key : α → ℚ} {a : α} {l : List α} :
    a ∈ sortDesc key l ↔ a ∈ l := by
  induction l with
  | nil => simp [sortDesc]
  | cons y t ih => simp [sortDesc, mem_insertDesc, ih]

theorem sublist_insertDesc {α : Type} (key : α → ℚ) (x : α) {l' l : List α}
    (h : l'.Sublist l) : l'.Sublist (insertDesc key x l) := by
  rw [insertDesc_eq_takeWhile]
  have h2 : l'.Sublist
      (l.takeWhile (fun y => decide (key x < key y)) ++
        l.dropWhile (fun y => decide (key x < key y))) := by
    rw [List.takeWhile_append_dropWhile]
    exact h
  exact h2.trans (List.Sublist.append_left
    (List.sublist_cons_self x _) _)

theorem sortDesc_sorted {α : Type} (key : α → ℚ) (l : List α) :
    (sortDesc key l).Pairwise (fun a b => key b ≤ key a) := by
  induction l with
  | nil => simp [sortDesc]
  | cons x t ih =>
    simp only [sortDesc]
    generalize hs : sortDesc key t = s at ih
    clear hs
    induction s with
    | nil => simp [insertDesc]
    | cons y u ihs =>
      rcases List.pairwise_cons.mp ih with ⟨hy, hu⟩
      by_cases h : key x < key y
      · simp only [insertDesc, if_pos h]
        refine List.pairwise_cons.mpr ⟨?_, ihs hu⟩
        intro b hb
        rcases mem_insertDesc.mp hb with rfl | hb
        · exact le_of_lt h
        · exact hy b hb
      · simp only [insertDesc, if_neg h]
        push_neg at h
        refine List.pairwise_cons.mpr ⟨?_, ih⟩
        intro b hb
        rcases List.mem_cons.mp hb with rfl | hb
        · exact h
        · exact le_trans (hy b hb) h

/-- Stability: if `x` occurs before `y` in the input and `key y ≤ key x`,
then `x` still occurs before `y` after sorting. -/
theorem sortDesc_stable {α : Type} {key : α → ℚ} {x y : α} {l : List α}
    (hsub : [x, y].Sublist l) (hk : key y ≤ key x) :
    [x, y].Sublist (sortDesc key l) := by
  induction l with
  | nil => cases hsub
  | cons h t ih =>
    rcases hsub with _ | ⟨_, _⟩
    case cons hsub' => exact sublist_insertDesc key h (ih hsub')
    case cons₂ hy =>
      -- x = h and y ∈ t
      have hyt : y ∈ t := hy.subset (List.mem_singleton_self y)
      have hys : y ∈ sortDesc key t := mem_sortDesc.mpr hyt
      simp only [sortDesc]
      rw [insertDesc_eq_takeWhile]
      have hnot : y ∉ (sortDesc key t).takeWhile
          (fun z => decide (key x < key z)) := by
        intro hmem
        have := List.mem_takeWhile_imp hmem
        simp only [decide_eq_true_eq] at this
        exact absurd hk (not_le.mpr this)
      have hdw : y ∈ (sortDesc key t).dropWhile
          (fun z => decide (key x < key z)) := by
        have := (List.takeWhile_append_dropWhile
          (p := fun z => decide (key x < key z)) (l := sortDesc key t))
        rw [← this] at hys
        rcases List.mem_append.mp hys with h1 | h2
        · exact absurd h1 hnot
        · exact h2
      rcases List.append_of_mem hdw with ⟨s1, s2, hsplit⟩
      rw [hsplit]
      have : [x, y].Sublist (x :: (s1 ++ y :: s2)) := by
        refine List.cons_sublist_cons.mpr ?_
        exact (List.singleton_sublist.mpr (by simp))
      exact this.trans (List.sublist_append_right _ _)

/-- Strict dominance: an element with strictly larger key ends up before
any element with smaller key, regardless of input order. -/
theorem sortDesc_strict {α : Type} {key : α → ℚ} {x y : α} {l : List α}
    (hx : x ∈ l) (hy : y ∈ l) (hk : key y < key x) :
    [x, y].Sublist (sortDesc key l) := by
  induction l with
  | nil => cases hx
  | cons h t ih =>
    simp only [sortDesc]
    rcases List.mem_cons.mp hx with rfl | hxt
    · -- x is the head being inserted
      have hyt : y ∈ t := by
        rcases List.mem_cons.mp hy with rfl | h2
        · exact absurd hk (lt_irrefl _)
        · exact h2
      have hys : y ∈ sortDesc key t := mem_sortDesc.mpr hyt
      rw [insertDesc_eq_takeWhile]
      have hnot : y ∉ (sortDesc key t).takeWhile
          (fun z => decide (key x < key z)) := by
        intro hmem
        have := List.mem_takeWhile_imp hmem
        simp only [decide_eq_true_eq] at this
        exact absurd hk (not_lt.mpr (le_of_lt this))
      have hdw : y ∈ (sortDesc key t).dropWhile
          (fun z => decide (key x < key z)) := by
        have := (List.takeWhile_append_dropWhile
          (p := fun z => decide (key x < key z)) (l := sortDesc key t))
        rw [← this] at hys
        rcases List.mem_append.mp hys with h1 | h2
        · exact absurd h1 hnot
        · exact h2
      rcases List.append_of_mem hdw with ⟨s1, s2, hsplit⟩
      rw [hsplit]
      have : [x, y].Sublist (x :: (s1 ++ y :: s2)) :=
        List.cons_sublist_cons.mpr (List.singleton_sublist.mpr (by simp))
      exact this.trans (List.sublist_append_right _ _)
    · rcases List.mem_cons.mp hy with rfl | hyt
      · -- y is the head being inserted; x sits in the sorted tail
        have hxs : x ∈ sortDesc key t := mem_sortDesc.mpr hxt
        rw [insertDesc_eq_takeWhile]
        have hsorted := sortDesc_sorted key t
        -- x must be inside the takeWhile prefix
        have hxtw : x ∈ (sortDesc key t).takeWhile
            (fun z => decide (key y < key z)) := by
          by_contra hxnot
          have hxdw : x ∈ (sortDesc key t).dropWhile
              (fun z => decide (key y < key z)) := by
            have := (List.takeWhile_append_dropWhile
              (p := fun z => decide (key y < key z)) (l := sortDesc key t))
            rw [← this] at hxs
            rcases List.mem_append.mp hxs with h1 | h2
            · exact absurd h1 hxnot
            · exact h2
          -- sorted: every element of the dropWhile suffix has key ≤ key y
          set p : α → Bool := fun z => decide (key y < key z) with hp
          rcases hdrop : (sortDesc key t).dropWhile p with _ | ⟨d, ds⟩
          · rw [hdrop] at hxdw; cases hxdw
          · have hdhead : ¬ (p d = true) := by
              have := List.head?_dropWhile_not p (sortDesc key t)
              rw [hdrop] at this
              simp at this
              simpa [hp] using this
            have hdle : key d ≤ key y := by
              by_contra hlt
              exact hdhead (by simp [hp, decide_eq_true_eq]; exact not_le.mp hlt)
            have hsuffix : ((sortDesc key t).dropWhile p).Sublist
                (sortDesc key t) := List.dropWhile_sublist p
            have hpair : (d :: ds).Pairwise (fun a b => key b ≤ key a) := by
              rw [← hdrop]
              exact List.Pairwise.sublist hsuffix hsorted
            rw [hdrop] at hxdw
            rcases List.mem_cons.mp hxdw with rfl | hxds
            · exact absurd hk (not_lt.mpr hdle)
            · have : key x ≤ key d :=
                (List.pairwise_cons.mp hpair).1 x hxds
              exact absurd hk (not_lt.mpr (le_trans this hdle))
        rcases List.append_of_mem hxtw with ⟨s1, s2, hsplit⟩
        rw [hsplit, List.append_assoc, List.cons_append]
        refine List.Sublist.trans ?_ (List.sublist_append_right s1 _)
        refine List.cons_sublist_cons.mpr ?_
        refine List.singleton_sublist.mpr ?_
        simp
      · exact sublist_insertDesc key h (ih hxt hyt)

/-! ## Context assembler (src/agent/prompts.ts)

`buildContext` pushes strings onto a `sections` array and joins them
with `"\n"`.  We tag each pushed string with its push site (section
header, item line, or truncation marker); rendering erases the tags.
The mutable `currentTokens` counter is threaded through `BuildSt`
exactly as the closure mutates it (including the early-return paths
that leave the counter incremented). -/

namespace Prompts

/-- `Math.ceil(text.length / 4)`. -/
def estimateTokens (text : String) : ℕ := (text.length + 3) / 4

inductive CtxEntry where
  | header (s : String)
  | item (s : String)
  | marker (s : String)
deriving DecidableEq, Repr

def CtxEntry.payload : CtxEntry → String
  | .header s => s
  | .item s => s
  | .marker s => s

def CtxEntry.isMarker : CtxEntry → Bool
  | .marker _ => true
  | _ => false

/-- Token estimate of an entry as the source counts it: markers are
pushed without updating `currentTokens`. -/
def CtxEntry.counted : CtxEntry → ℕ
  | .header s => estimateTokens s
  | .item s => estimateTokens s
  | .marker _ => 0

def countedTokens (es : List CtxEntry) : ℕ := (es.map CtxEntry.counted).sum

structure BuildSt where
  entries : List CtxEntry
  tokens : ℕ
deriving DecidableEq, Repr

/-- `(m.importance * 0.7) + (recencyScore * 0.3)` with
`recencyScore = max(0, 1 - ageInDays / 365)`. -/
def ctxScore (now : ℚ) (m : Memory) : ℚ :=
  let ageInDays := (now - m.timestamp) / (1000 * 60 * 60 * 24)
  let recencyScore := max 0 (1 - ageInDays / 365)
  m.importance * (7 / 10) + recencyScore * (3 / 10)

/-- `Math.floor` on a rational: floor division of numerator by
denominator (`Int.fdiv` rounds toward negative infinity). -/
def ratFloor (q : ℚ) : ℤ := q.num.fdiv q.den

/-- The item line: `` `${i + 1}. [${timeStr}] ${content}` ``. -/
def fmtLine (now : ℚ) (charLimit : ℕ) (i : ℕ) (m : Memory) : String :=
  let daysAgo : ℤ := ratFloor ((now - m.timestamp) / 1000 / 60 / 60 / 24)
  let timeStr :=
    if daysAgo = 0 then "today"
    else if daysAgo = 1 then "yesterday"
    else toString daysAgo ++ " days ago"
  let content :=
    if m.content.length > charLimit then m.content.take charLimit ++ "..."
    else m.content
  toString (i + 1) ++ ". [" ++ timeStr ++ "] " ++ content

def truncMarker (n : ℕ) : String :=
  "... (" ++ toString n ++ " more items truncated due to context limit)"

/-- The item loop of `addSection`; `total` is `items.length` of the
full (untaken) list, used in the marker text. -/
def addItems (now : ℚ) (maxTokens charLimit total : ℕ) :
    List Memory → ℕ → BuildSt → BuildSt
  | [], _, st => st
  | m :: rest, i, st =>
    let line := fmtLine now charLimit i m
    let lineTokens := estimateTokens line
    if maxTokens < st.tokens + lineTokens then
      { st with entries := st.entries ++ [CtxEntry.marker (truncMarker (total - i))] }
    else
      addItems now maxTokens charLimit total rest (i + 1)
        { entries := st.entries ++ [CtxEntry.item line],
          tokens := st.tokens + lineTokens }

def addSection (now : ℚ) (maxTokens : ℕ) (st : BuildSt) (title : String)
    (items : List Memory) (maxItems charLimit : ℕ) : BuildSt :=
  if items = [] then st
  else
    let sectionStart := "\n" ++ title
    let tokens1 := st.tokens + estimateTokens sectionStart
    if maxTokens ≤ tokens1 then { st with tokens := tokens1 }
    else
      addItems now maxTokens charLimit items.length (items.take maxItems) 0
        { entries := st.entries ++ [CtxEntry.header sectionStart],
          tokens := tokens1 }

def buildEntries (now : ℚ) (memories : List Memory) (maxTokens : ℕ) : BuildSt :=
  let sortedMemories := sortDesc (ctxScore now) memories
  let bugReports := sortedMemories.filter
    (fun m => decide (m.category = MemoryCategory.bug_report))
  let featureRequests := sortedMemories.filter
    (fun m => decide (m.category = MemoryCategory.feature_request))
  let preferences := sortedMemories.filter
    (fun m => decide (m.type = MemoryType.preference ∨ m.type = MemoryType.extracted_fact))
  let sentiment := sortedMemories.filter
    (fun m => decide (m.type = MemoryType.sentiment))
  let recent := (sortedMemories.filter
    (fun m => decide (m.type = MemoryType.conversation))).take 3
  let st0 : BuildSt := { entries := [], tokens := 0 }
  let st1 := addSection now maxTokens st0 "CUSTOMER PROFILE:" preferences 10 150
  let st2 := addSection now maxTokens st1 "KNOWN ISSUES:" bugReports 5 120
  let st3 := addSection now maxTokens st2 "FEATURE REQUESTS:" featureRequests 5 120
  let st4 := addSection now maxTokens st3 "SENTIMENT HISTORY:" sentiment 3 100
  addSection now maxTokens st4 "RECENT INTERACTIONS:" recent 3 200

/-- `buildContext(memories, maxTokens = 2000)`; callers in the source
use the default 2000. -/
def buildContext (now : ℚ) (memories : List Memory) (maxTokens : ℕ) : String :=
  if memories = [] then "No previous context available for this customer."
  else String.intercalate "\n"
    ((buildEntries now memories maxTokens).entries.map CtxEntry.payload)

end Prompts

namespace Prompts

theorem countedTokens_append (a b : List CtxEntry) :
    countedTokens (a ++ b) = countedTokens a + countedTokens b := by
  simp [countedTokens]

theorem countedTokens_marker (es : List CtxEntry) (s : String) :
    countedTokens (es ++ [CtxEntry.marker s]) = countedTokens es := by
  simp [countedTokens, CtxEntry.counted]

theorem countedTokens_item (es : List CtxEntry) (s : String) :
    countedTokens (es ++ [CtxEntry.item s]) = countedTokens es + estimateTokens s := by
  simp [countedTokens, CtxEntry.counted]

theorem countedTokens_header (es : List CtxEntry) (s : String) :
    countedTokens (es ++ [CtxEntry.header s]) = countedTokens es + estimateTokens s := by
  simp [countedTokens, CtxEntry.counted]

/-- The invariant the token counter maintains: the counted token total of
the pushed entries never exceeds the counter, and never exceeds the
budget.  (The counter itself can exceed the budget on skip paths.) -/
def BuildInv (maxTokens : ℕ) (st : BuildSt) : Prop :=
  countedTokens st.entries ≤ st.tokens ∧ countedTokens st.entries ≤ maxTokens

theorem addItems_inv (now : ℚ) (maxTokens charLimit total : ℕ) :
    ∀ (l : List Memory) (i : ℕ) (st : BuildSt), BuildInv maxTokens st →
      BuildInv maxTokens (addItems now maxTokens charLimit total l i st) := by
  intro l
  induction l with
  | nil => intro i st h; exact h
  | cons m rest ih =>
    intro i st h
    rcases h with ⟨h1, h2⟩
    simp only [addItems]
    by_cases hov : maxTokens < st.tokens + estimateTokens (fmtLine now charLimit i m)
    · simp only [if_pos hov]
      exact ⟨by simpa [countedTokens_marker] using h1,
             by simpa [countedTokens_marker] using h2⟩
    · simp only [if_neg hov]
      push_neg at hov
      refine ih (i + 1) _ ⟨?_, ?_⟩
      · simp only [countedTokens_item]
        omega
      · simp only [countedTokens_item]
        omega

theorem addSection_inv (now : ℚ) (maxTokens : ℕ) (st : BuildSt) (title : String)
    (items : List Memory) (maxItems charLimit : ℕ) (h : BuildInv maxTokens st) :
    BuildInv maxTokens (addSection now maxTokens st title items maxItems charLimit) := by
  rcases h with ⟨h1, h2⟩
  simp only [addSection]
  by_cases hnil : items = []
  · simp only [if_pos hnil]; exact ⟨h1, h2⟩
  · simp only [if_neg hnil]
    by_cases hsk : maxTokens ≤ st.tokens + estimateTokens ("\n" ++ title)
    · simp only [if_pos hsk]
      exact ⟨le_trans h1 (Nat.le_add_right _ _), h2⟩
    · simp only [if_neg hsk]
      push_neg at hsk
      refine addItems_inv now maxTokens charLimit items.length
        (items.take maxItems) 0 _ ⟨?_, ?_⟩
      · simp only [countedTokens_header]
        omega
      · simp only [countedTokens_header]
        omega

theorem single_split {α : Type} (x e : α) (pre post : List α)
    (h : [x] = pre ++ e :: post) : pre = [] ∧ e = x ∧ post = [] := by
  cases pre with
  | nil =>
    injection h with h1 h2
    exact ⟨rfl, h1.symm, h2.symm⟩
  | cons a b =>
    injection h with h1 h2
    exact absurd h2.symm (by simp)

/-- The item loop appends its entries at the end; any truncation marker
it emits is the last entry it contributes (processing of the section
stops at the marker) and names a positive number of dropped items. -/
theorem addItems_shape (now : ℚ) (maxTokens charLimit total : ℕ) :
    ∀ (l : List Memory) (i : ℕ) (st : BuildSt), i + l.length ≤ total →
      ∃ new, (addItems now maxTokens charLimit total l i st).entries =
          st.entries ++ new ∧
        (∀ pre e post, new = pre ++ e :: post → e.isMarker = true →
          post = [] ∧ ∃ k, 0 < k ∧ e = CtxEntry.marker (truncMarker k)) := by
  intro l
  induction l with
  | nil =>
    intro i st _
    refine ⟨[], by simp [addItems], ?_⟩
    intro pre e post hsplit
    exact absurd hsplit (by simp)
  | cons m rest ih =>
    intro i st hlen
    simp only [addItems]
    by_cases hov : maxTokens < st.tokens + estimateTokens (fmtLine now charLimit i m)
    · simp only [if_pos hov]
      refine ⟨[CtxEntry.marker (truncMarker (total - i))], by simp, ?_⟩
      intro pre e post hsplit hm
      rcases single_split _ _ _ _ hsplit with ⟨_, rfl, hpost⟩
      refine ⟨hpost, total - i, ?_, rfl⟩
      have hi : i < total := by
        simp only [List.length_cons] at hlen
        omega
      omega
    · simp only [if_neg hov]
      have hlen' : (i + 1) + rest.length ≤ total := by
        simp only [List.length_cons] at hlen
        omega
      rcases ih (i + 1)
          { entries := st.entries ++ [CtxEntry.item (fmtLine now charLimit i m)],
            tokens := st.tokens + estimateTokens (fmtLine now charLimit i m) }
          hlen' with ⟨new', hnew', hmark'⟩
      refine ⟨CtxEntry.item (fmtLine now charLimit i m) :: new', ?_, ?_⟩
      · rw [hnew']
        simp
      · intro pre e post hsplit hm
        cases pre with
        | nil =>
          injection hsplit with hh _
          rw [← hh] at hm
          simp [CtxEntry.isMarker] at hm
        | cons a b =>
          injection hsplit with _ htail
          exact hmark' b e post htail hm

theorem addSection_shape (now : ℚ) (maxTokens : ℕ) (st : BuildSt) (title : String)
    (items : List Memory) (maxItems charLimit : ℕ) :
    ∃ new, (addSection now maxTokens st title items maxItems charLimit).entries =
        st.entries ++ new ∧
      (∀ pre e post, new = pre ++ e :: post → e.isMarker = true →
        post = [] ∧ ∃ k, 0 < k ∧ e = CtxEntry.marker (truncMarker k)) := by
  simp only [addSection]
  by_cases hnil : items = []
  · simp only [if_pos hnil]
    refine ⟨[], by simp, ?_⟩
    intro pre e post hsplit
    exact absurd hsplit (by simp)
  · simp only [if_neg hnil]
    by_cases hsk : maxTokens ≤ st.tokens + estimateTokens ("\n" ++ title)
    · simp only [if_pos hsk]
      refine ⟨[], by simp, ?_⟩
      intro pre e post hsplit
      exact absurd hsplit (by simp)
    · simp only [if_neg hsk]
      have hlen : 0 + (items.take maxItems).length ≤ items.length := by
        simp [List.length_take]
      rcases addItems_shape now maxTokens charLimit items.length
          (items.take maxItems) 0
          { entries := st.entries ++ [CtxEntry.header ("\n" ++ title)],
            tokens := st.tokens + estimateTokens ("\n" ++ title) }
          hlen with ⟨new', hnew', hmark'⟩
      refine ⟨CtxEntry.header ("\n" ++ title) :: new', ?_, ?_⟩
      · rw [hnew']
        simp
      · intro pre e post hsplit hm
        cases pre with
        | nil =>
          injection hsplit with hh _
          rw [← hh] at hm
          simp [CtxEntry.isMarker] at hm
        | cons a b =>
          injection hsplit with _ htail
          exact hmark' b e post htail hm

end Prompts

/-! ## Concrete inputs used by the context-assembly counterexamples -/

/-- A preference memory (timestamp 0, importance 0.9). -/
def exPref (i : Nat) (content : String) : Memory :=
  { id := i, userId := "u", content := content,
    type := MemoryType.preference, category := MemoryCategory.general,
    timestamp := 0, sessionId := none, importance := 9 / 10,
    relevance := none, metadata := MetaData.empty }

/-- A bug-report memory (timestamp 0, importance 0.5). -/
def exBug : Memory :=
  { id := 4, userId := "u", content := "bug",
    type := MemoryType.event, category := MemoryCategory.bug_report,
    timestamp := 0, sessionId := none, importance := 1 / 2,
    relevance := none, metadata := MetaData.empty }

/-- C1 (counterexample).  One preference memory against a budget of 6
tokens: its header (5 tokens) fits, its item line (4 tokens) does not,
so the truncation marker is emitted — but the marker's own characters
are never charged against the budget, and the returned block estimates
at 17 tokens, exceeding `maxTokens = 6` even though the block does
contain the marker.  This falsifies the claim that the block's
estimated token count never exceeds `maxTokens`. -/
theorem c1_counterexample :
    Prompts.buildContext 0 [exPref 1 ("hello")] 6 =
      "\nCUSTOMER PROFILE:\n... (1 more items truncated due to context limit)" ∧
    6 < Prompts.estimateTokens ("\nCUSTOMER PROFILE:")
        + Prompts.estimateTokens (Prompts.fmtLine 0 150 0 (exPref 1 ("hello"))) ∧
    Prompts.estimateTokens (Prompts.buildContext 0 [exPref 1 ("hello")] 6) = 17 ∧
    6 < Prompts.estimateTokens (Prompts.buildContext 0 [exPref 1 ("hello")] 6) := by
  have h : Prompts.buildContext 0 [exPref 1 ("hello")] 6 =
      "\nCUSTOMER PROFILE:\n... (1 more items truncated due to context limit)" := by
    norm_num [Prompts.buildContext, Prompts.buildEntries, Prompts.addSection,
      Prompts.addItems, Prompts.fmtLine, Prompts.ratFloor, Prompts.estimateTokens,
      Prompts.ctxScore, Prompts.truncMarker, sortDesc, insertDesc, exPref,
      String.intercalate, Prompts.CtxEntry.payload]
    decide
  refine ⟨h, ?_, ?_, ?_⟩
  · norm_num [Prompts.fmtLine, Prompts.ratFloor, Prompts.estimateTokens, exPref]
    decide
  · rw [h]; decide
  · rw [h]; decide

/-- C1 (amended).  The accounting that `buildContext` actually performs
is budget-respecting: the sum of the per-line token estimates of every
section header and item line included in the block never exceeds
`maxTokens`.  (Truncation markers and the joining newlines are pushed
without being counted, which is why the rendered block itself can
exceed the budget, as the counterexample shows.) -/
theorem c1_amended (now : ℚ) (memories : List Memory) (maxTokens : ℕ) :
    Prompts.countedTokens (Prompts.buildEntries now memories maxTokens).entries
      ≤ maxTokens := by
  have h0 : Prompts.BuildInv maxTokens { entries := [], tokens := 0 } :=
    ⟨Nat.le_refl 0, Nat.zero_le _⟩
  simp only [Prompts.buildEntries]
  exact (Prompts.addSection_inv _ _ _ _ _ _ _
    (Prompts.addSection_inv _ _ _ _ _ _ _
      (Prompts.addSection_inv _ _ _ _ _ _ _
        (Prompts.addSection_inv _ _ _ _ _ _ _
          (Prompts.addSection_inv _ _ _ _ _ _ _ h0))))).2

/-- C5 (counterexample).  Three preference memories (11 tokens per line)
and one bug report against a budget of 37: the third profile line
overflows, so the marker is emitted — and then the KNOWN ISSUES section
is still attempted, appending its header and an item line *after* the
marker.  This falsifies the claim that processing stops entirely at the
marker. -/
theorem c5_counterexample :
    (Prompts.buildEntries 0
        [exPref 1 ("abcdefghijklmnopqrstuvwxyz012345"),
         exPref 2 ("abcdefghijklmnopqrstuvwxyz012345"),
         exPref 3 ("abcdefghijklmnopqrstuvwxyz012345"), exBug] 37).entries =
      [Prompts.CtxEntry.header ("\nCUSTOMER PROFILE:"),
       Prompts.CtxEntry.item ("1. [today] abcdefghijklmnopqrstuvwxyz012345"),
       Prompts.CtxEntry.item ("2. [today] abcdefghijklmnopqrstuvwxyz012345"),
       Prompts.CtxEntry.marker ("... (1 more items truncated due to context limit)"),
       Prompts.CtxEntry.header ("\nKNOWN ISSUES:"),
       Prompts.CtxEntry.item ("1. [today] bug")] ∧
    (Prompts.CtxEntry.marker
        ("... (1 more items truncated due to context limit)")).isMarker = true ∧
    (Prompts.CtxEntry.header ("\nKNOWN ISSUES:")).isMarker = false := by
  refine ⟨?_, rfl, rfl⟩
  norm_num [Prompts.buildEntries, Prompts.addSection,
    Prompts.addItems, Prompts.fmtLine, Prompts.ratFloor, Prompts.estimateTokens,
    Prompts.ctxScore, Prompts.truncMarker, sortDesc, insertDesc, exPref, exBug]
  decide

/-- C5 (amended).  Within a single section, the moment an item line
would push the counter over `maxTokens`, one truncation marker naming a
positive number of dropped items is emitted and that section stops: the
marker is the last entry the section contributes.  Later sections are
still attempted afterwards (the counterexample shows they can append
further headers and item lines after the marker). -/
theorem c5_amended (now : ℚ) (maxTokens : ℕ) (st : Prompts.BuildSt)
    (title : String) (items : List Memory) (maxItems charLimit : ℕ) :
    ∃ new,
      (Prompts.addSection now maxTokens st title items maxItems charLimit).entries =
        st.entries ++ new ∧
      (∀ pre e post, new = pre ++ e :: post → e.isMarker = true →
        post = [] ∧ ∃ k, 0 < k ∧ e = Prompts.CtxEntry.marker (Prompts.truncMarker k)) :=
  Prompts.addSection_shape now maxTokens st title items maxItems charLimit

/-! ## String helpers (JS `String.prototype` operations used by the core)

Implemented over `List Char`; `toLowerCase` is modelled on the ASCII
range, which covers every pattern the source matches. -/

/-- JS `toLowerCase` (ASCII). -/
def lowerStr (s : String) : String := String.mk (s.data.map Char.toLower)

/-- Does `l` start with `p`? -/
def listLeads (p l : List Char) : Bool :=
  match p, l with
  | [], _ => true
  | _ :: _, [] => false
  | a :: p', b :: l' => a = b && listLeads p' l'

/-- JS `hay.includes(needle)`. -/
def listIncl (needle : List Char) : List Char → Bool
  | [] => listLeads needle []
  | c :: rest => listLeads needle (c :: rest) || listIncl needle rest

def strIncludes (hay needle : String) : Bool := listIncl needle.data hay.data

/-- A regex word character (`\w`): `[A-Za-z0-9_]`. -/
def isWordChar (c : Char) : Bool := c.isAlpha || c.isDigit || c = '_'

/-- A regex whitespace character (`\s`), ASCII range. -/
def isSpaceChar (c : Char) : Bool :=
  c = ' ' || c = '\t' || c = '\n' || c = '\r' || c = '\x0b' || c = '\x0c'

/-- JS `String.prototype.trim`: strip leading and trailing whitespace. -/
def jsTrim (s : String) : String :=
  String.mk (((s.data.dropWhile isSpaceChar).reverse.dropWhile isSpaceChar).reverse)

/-- Scans for a word-bounded `is` (`\bis\b`) reachable without crossing
a newline (`.` does not match `\n`); `prev` is the character before the
current position. -/
def findBoundedIs (prev : Char) : List Char → Bool
  | [] => false
  | c :: rest =>
    (if c = 'i' then
      match rest with
      | 's' :: rest2 =>
        (!isWordChar prev) &&
          (match rest2 with
           | [] => true
           | d :: _ => !isWordChar d)
      | _ => false
     else false)
    || (c != '\n' && findBoundedIs c rest)

/-- `/\bname\b.*\bis\b/` applied to the character list. -/
def scanNameIs (prev : Char) : List Char → Bool
  | [] => false
  | c :: rest =>
    (if c = 'n' then
      match rest with
      | 'a' :: 'm' :: 'e' :: rest2 =>
        (!isWordChar prev) &&
          (match rest2 with
           | [] => false
           | d :: _ => !isWordChar d) &&
          findBoundedIs 'e' rest2
      | _ => false
     else false)
    || scanNameIs c rest

/-- `lower.match(/\bname\b.*\bis\b/)` (start of string is a boundary). -/
def hasNameIsPattern (s : String) : Bool := scanNameIs ' ' s.data

/-- Is there a `@` ahead, before any newline? -/
def findAtSign : List Char → Bool
  | [] => false
  | c :: rest => c = '@' || (c != '\n' && findAtSign rest)

/-- `lower.match(/email.*@/)`. -/
def scanEmailAt : List Char → Bool
  | [] => false
  | c :: rest =>
    (listLeads ("email".data) (c :: rest) && findAtSign ((c :: rest).drop 5))
    || scanEmailAt rest

def hasEmailAtPattern (s : String) : Bool := scanEmailAt s.data

/-- Three consecutive digits at the head. -/
def threeDigits : List Char → Bool
  | a :: b :: c :: _ => a.isDigit && b.isDigit && c.isDigit
  | _ => false

/-- `/\d{3}[-.\s]?\d{3,4}/`: three digits, an optional separator from
`[-.\s]`, then at least three more digits. -/
def scanPhone : List Char → Bool
  | [] => false
  | c :: rest =>
    (match c :: rest with
     | a :: b :: d :: rest2 =>
       a.isDigit && b.isDigit && d.isDigit &&
         (threeDigits rest2 ||
          (match rest2 with
           | s :: rest3 => (s = '-' || s = '.' || isSpaceChar s) && threeDigits rest3
           | [] => false))
     | _ => false)
    || scanPhone rest

def hasPhonePattern (s : String) : Bool := scanPhone s.data

/-! ## MemoryManager.detectFactType (src/memory/memoryManager.ts) -/

namespace MemoryManager

/-- Classifies a fact's content into a fact-type tag via the fixed
pattern rules of `detectFactType`. -/
def detectFactType (content : String) : Option String :=
  let lower := lowerStr content
  if strIncludes lower ("user\x27s name is") || strIncludes lower ("user is called") ||
      strIncludes lower ("prefers to be called") || hasNameIsPattern lower then
    some "name"
  else if strIncludes lower ("user\x27s email") || strIncludes lower ("email is") ||
      hasEmailAtPattern lower then
    some "email"
  else if strIncludes lower ("user\x27s phone") || strIncludes lower ("phone is") ||
      (strIncludes lower ("call") && hasPhonePattern lower) then
    some "phone"
  else if strIncludes lower ("works at") || strIncludes lower ("employed by") ||
      strIncludes lower ("company is") then
    some "company"
  else if strIncludes lower ("lives in") || strIncludes lower ("from") ||
      strIncludes lower ("located in") then
    some "location"
  else
    none

end MemoryManager

/-! ## Vector Store Adapter (src/memory/vectorStore.ts)

The ChromaDB collection is a black box supporting filtered k-nearest-
neighbour queries; we model it as the list of inserted records in
insertion order ("the store's native return order"), with the distance
function `dist` (cosine distance) supplied as a parameter.  A query
sorts the filtered records by ascending distance (stably) and takes the
first `nResults`. -/

/-- A record as stored: a memory together with its embedding. -/
structure VectorMemory where
  id : Nat
  userId : String
  content : String
  embedding : List ℚ
  type : MemoryType
  category : MemoryCategory
  timestamp : ℚ
  sessionId : Option String
  importance : ℚ
  metadata : MetaData
deriving DecidableEq, Repr

/-- The metadata filters of `searchByEmbedding`. -/
structure Filters where
  userId : Option String
  category : Option MemoryCategory
  type : Option MemoryType
  timestampGte : Option ℚ
  timestampLte : Option ℚ
deriving DecidableEq, Repr

def Filters.onlyUser (u : String) : Filters :=
  { userId := some u, category := none, type := none,
    timestampGte := none, timestampLte := none }

namespace VectorStore

/-- The `where` clause built from the three equality filters. -/
def matchesWhere (f : Filters) (m : VectorMemory) : Bool :=
  (match f.userId with | none => true | some u => m.userId = u) &&
  (match f.category with | none => true | some c => m.category = c) &&
  (match f.type with | none => true | some t => m.type = t)

/-- Ascending stable sort by a rational key (the index returns nearest
neighbours first; ties keep insertion order). -/
def sortAsc {α : Type} (key : α → ℚ) (l : List α) : List α :=
  sortDesc (fun x => -(key x)) l

/-- The black-box k-NN query of the collection. -/
def knnQuery (dist : List ℚ → List ℚ → ℚ) (records : List VectorMemory)
    (queryEmb : List ℚ) (whereF : VectorMemory → Bool) (nResults : ℕ) :
    List (VectorMemory × ℚ) :=
  (sortAsc (fun p => p.2)
    ((records.filter whereF).map (fun m => (m, dist queryEmb m.embedding)))).take
    nResults

/-- `formatSearchResults` on one raw record: `relevance = 1 - distance`,
set both on the result and on the returned memory. -/
def toSearchResult (p : VectorMemory × ℚ) : SearchResult :=
  { memory :=
      { id := p.1.id, userId := p.1.userId, content := p.1.content,
        type := p.1.type, category := p.1.category,
        timestamp := p.1.timestamp, sessionId := p.1.sessionId,
        importance := p.1.importance, relevance := some (1 - p.2),
        metadata := p.1.metadata },
    distance := p.2, relevance := 1 - p.2 }

/-- `searchByEmbedding(embedding, filters, limit = 5)`: fetch
`limit * 2`, post-filter by the timestamp range, then slice `limit`. -/
def searchByEmbedding (dist : List ℚ → List ℚ → ℚ) (records : List VectorMemory)
    (embedding : List ℚ) (filters : Filters) (limit : ℕ) : List SearchResult :=
  let fetched := knnQuery dist records embedding (matchesWhere filters) (limit * 2)
  let searchResults := fetched.map toSearchResult
  let searchResults :=
    if filters.timestampGte.isSome || filters.timestampLte.isSome then
      searchResults.filter (fun r =>
        (match filters.timestampGte with
         | none => true
         | some g => decide (g ≤ r.memory.timestamp)) &&
        (match filters.timestampLte with
         | none => true
         | some le' => decide (r.memory.timestamp ≤ le')))
    else searchResults
  searchResults.take limit

/-- `searchMemories(query, userId, limit = 5)` given the query's
embedding: a `where: { userId }` k-NN fetch of `limit` records. -/
def searchMemories (dist : List ℚ → List ℚ → ℚ) (records : List VectorMemory)
    (queryEmb : List ℚ) (userId : String) (limit : ℕ) : List SearchResult :=
  (knnQuery dist records queryEmb
    (matchesWhere (Filters.onlyUser userId)) limit).map toSearchResult

/-- `addMemory` of the adapter: `collection.add` appends the record. -/
def addMemory (records : List VectorMemory) (m : VectorMemory) :
    List VectorMemory :=
  records ++ [m]

/-- `deleteMemory(memoryId)`: delete by id. -/
def deleteMemory (records : List VectorMemory) (memoryId : Nat) :
    List VectorMemory :=
  records.filter (fun m => m.id ≠ memoryId)

/-- `getUserMemories(userId)`: all of a user's records, without
embeddings or relevance, in the store's native order. -/
def getUserMemories (records : List VectorMemory) (userId : String) :
    List Memory :=
  (records.filter (fun m => m.userId = userId)).map (fun m =>
    { id := m.id, userId := m.userId, content := m.content,
      type := m.type, category := m.category, timestamp := m.timestamp,
      sessionId := m.sessionId, importance := m.importance,
      relevance := none, metadata := m.metadata })

end VectorStore

/-! ## MemoryManager (src/memory/memoryManager.ts) -/

/-- The argument of `MemoryManager.addMemory`.  (The source's
`MemoryInput` may carry a `timestamp`, but `addMemory` stamps the
record with `Date.now()` regardless, so it is not modelled.) -/
structure MemoryInput where
  userId : String
  content : String
  type : MemoryType
  category : MemoryCategory
  sessionId : Option String
  importance : Option ℚ
  metadata : MetaData
deriving DecidableEq, Repr

/-- The engine's mutable state: the vector store's records plus the
fresh-id counter modelling `uuidv4()`. -/
structure MMState where
  records : List VectorMemory
  nextId : Nat
deriving DecidableEq, Repr

def MMState.empty : MMState := { records := [], nextId := 0 }

namespace MemoryManager

/-- `calculateImportance`: additive bumps on a 0.5 base, capped at 1. -/
def calculateImportance (category : MemoryCategory) (type : MemoryType) : ℚ :=
  let score : ℚ := 1 / 2
  let score := if category = MemoryCategory.bug_report then score + 3 / 10 else score
  let score := if category = MemoryCategory.feature_request then score + 2 / 10 else score
  let score := if type = MemoryType.preference then score + 2 / 10 else score
  let score := if type = MemoryType.event then score + 1 / 10 else score
  min score 1

/-- `findSimilarMemories`: `searchByEmbedding` scoped to the user only
(no `type` or `category` filter), limit 5. -/
def findSimilarMemories (dist : List ℚ → List ℚ → ℚ) (st : MMState)
    (m : VectorMemory) : List SearchResult :=
  VectorStore.searchByEmbedding dist st.records m.embedding
    (Filters.onlyUser m.userId) 5

/-- `addMemory` given the content's embedding: build the record with
`timestamp = Date.now()`, check the top duplicate, and either skip
(returning the existing id) or insert. -/
def addMemoryWithEmb (dist : List ℚ → List ℚ → ℚ) (st : MMState) (now : ℚ)
    (memory : MemoryInput) (embedding : List ℚ) : Nat × MMState :=
  let id := st.nextId
  let importance :=
    match memory.importance with
    | some i => i
    | none => calculateImportance memory.category memory.type
  let vm : VectorMemory :=
    { id := id, userId := memory.userId, content := memory.content,
      embedding := embedding, type := memory.type,
      category := memory.category, timestamp := now,
      sessionId := memory.sessionId, importance := importance,
      metadata := memory.metadata }
  let duplicates := findSimilarMemories dist st vm
  match duplicates with
  | d :: _ =>
    if 95 / 100 < d.relevance then
      (d.memory.id, st)
    else
      (id, { records := VectorStore.addMemory st.records vm, nextId := st.nextId + 1 })
  | [] =>
    (id, { records := VectorStore.addMemory st.records vm, nextId := st.nextId + 1 })

/-- `addMemory`: embed the content, then insert with dedup. -/
def addMemory (embedFn : String → List ℚ) (dist : List ℚ → List ℚ → ℚ)
    (st : MMState) (now : ℚ) (memory : MemoryInput) : Nat × MMState :=
  addMemoryWithEmb dist st now memory (embedFn memory.content)

/-- A fact as produced by either extractor (`confidence` is absent on
the keyword path). -/
structure ExtractedFact where
  content : String
  importance : ℚ
  type : MemoryType
  category : MemoryCategory
  confidence : Option ℚ
deriving DecidableEq, Repr

/-- The scan loop of `findConflictingMemory`: first non-conversation
memory with the same fact-type tag and (case-insensitively) different
content. -/
def findConflictLoop (factType : String) (newContent : String) :
    List Memory → Option Memory
  | [] => none
  | m :: rest =>
    if m.type = MemoryType.conversation then
      findConflictLoop factType newContent rest
    else if detectFactType m.content = some factType
        ∧ lowerStr m.content ≠ lowerStr newContent then
      some m
    else
      findConflictLoop factType newContent rest

/-- `findConflictingMemory(userId, newFact)`. -/
def findConflictingMemory (st : MMState) (userId : String)
    (newFact : ExtractedFact) : Option Memory :=
  if newFact.type = MemoryType.preference ∨ newFact.type = MemoryType.extracted_fact then
    match detectFactType newFact.content with
    | none => none
    | some factType =>
      findConflictLoop factType newFact.content
        (VectorStore.getUserMemories st.records userId)
  else
    none

/-- One iteration of the fact-storing loop of `extractAndStoreKeyFacts`:
resolve a conflict (delete the superseded memory, then insert with
`replacedMemoryId`/`replacedAt` metadata) or store normally. -/
def storeExtractedFact (embedFn : String → List ℚ) (dist : List ℚ → List ℚ → ℚ)
    (st : MMState) (now : ℚ) (userId : String) (sessionId : Option String)
    (userMessage : String) (fact : ExtractedFact) : MMState :=
  match findConflictingMemory st userId fact with
  | some conflictingMemory =>
    let st1 : MMState :=
      { records := VectorStore.deleteMemory st.records conflictingMemory.id,
        nextId := st.nextId }
    (addMemory embedFn dist st1 now
      { userId := userId, content := fact.content, type := fact.type,
        category := fact.category, sessionId := sessionId,
        importance := some fact.importance,
        metadata :=
          { extractedFrom := some "llm",
            originalMessage := some (userMessage.take 100),
            confidence := fact.confidence,
            replacedMemoryId := some conflictingMemory.id,
            replacedAt := some now } }).2
  | none =>
    (addMemory embedFn dist st now
      { userId := userId, content := fact.content, type := fact.type,
        category := fact.category, sessionId := sessionId,
        importance := some fact.importance,
        metadata :=
          { extractedFrom := some "llm",
            originalMessage := some (userMessage.take 100),
            confidence := fact.confidence,
            replacedMemoryId := none, replacedAt := none } }).2

end MemoryManager

namespace MemoryManager

/-- `ReRankOptions`; the source reads each weight with a falsy-default
(`options.similarityWeight || 0.5`). -/
structure ReRankOptions where
  similarityWeight : Option ℚ
  importanceWeight : Option ℚ
  recencyWeight : Option ℚ
deriving DecidableEq, Repr

/-- JS `x || d` on an optional number: `undefined` and `0` (falsy) both
give the default. -/
def orDefaultRat (o : Option ℚ) (d : ℚ) : ℚ :=
  match o with
  | none => d
  | some q => if q = 0 then d else q

/-- JS `x || d` on an optional count. -/
def orDefaultNat (o : Option ℕ) (d : ℕ) : ℕ :=
  match o with
  | none => d
  | some n => if n = 0 then d else n

def oneYearMs : ℚ := 365 * 24 * 60 * 60 * 1000

/-- The composite score of `reRankResults`:
`similarity*W_sim + importance*W_imp + recency*W_rec` with
`recency = max(0, 1 - ageInMs / oneYear)`. -/
def compositeScore (now : ℚ) (options : ReRankOptions) (r : SearchResult) : ℚ :=
  let similarityWeight := orDefaultRat options.similarityWeight (5 / 10)
  let importanceWeight := orDefaultRat options.importanceWeight (3 / 10)
  let recencyWeight := orDefaultRat options.recencyWeight (2 / 10)
  let ageInMs := now - r.memory.timestamp
  let recencyScore := max 0 (1 - ageInMs / oneYearMs)
  r.relevance * similarityWeight + r.memory.importance * importanceWeight +
    recencyScore * recencyWeight

/-- `reRankResults`: attach composite scores, then the stable descending
sort of `Array.prototype.sort((a, b) => b.compositeScore - a.compositeScore)`. -/
def reRankResults (now : ℚ) (results : List SearchResult)
    (options : ReRankOptions) : List ScoredResult :=
  sortDesc (fun s => s.compositeScore)
    (results.map (fun r =>
      { result := r, compositeScore := compositeScore now options r }))

structure SearchOptions where
  limit : Option ℕ
  threshold : Option ℚ
  category : Option MemoryCategory
  includeRelated : Option Bool
deriving DecidableEq, Repr

/-- `options?.limit || 5`. -/
def effectiveLimit (options : Option SearchOptions) : ℕ :=
  orDefaultNat (options.bind (fun o => o.limit)) 5

/-- `options?.threshold || 0.7`. -/
def effectiveThreshold (options : Option SearchOptions) : ℚ :=
  orDefaultRat (options.bind (fun o => o.threshold)) (7 / 10)

/-- The post-search pipeline of `searchRelevantMemories` applied to the
raw vector-store results: optional category filter, relevance-threshold
filter, re-rank with weights (0.5, 0.3, 0.2), slice `limit`, project. -/
def searchPipeline (now : ℚ) (options : Option SearchOptions)
    (results : List SearchResult) : List Memory :=
  let limit := effectiveLimit options
  let threshold := effectiveThreshold options
  let results :=
    match options.bind (fun o => o.category) with
    | some c => results.filter (fun r : SearchResult => decide (r.memory.category = c))
    | none => results
  let results := results.filter (fun r => decide (threshold ≤ r.relevance))
  let reRankedResults := reRankResults now results
    { similarityWeight := some (5 / 10), importanceWeight := some (3 / 10),
      recencyWeight := some (2 / 10) }
  (reRankedResults.take limit).map (fun s => s.result.memory)

/-- `searchRelevantMemories(userId, query, options)`: a
`vectorStore.searchMemories` fetch of `limit * 2`, then the pipeline. -/
def searchRelevantMemories (embedFn : String → List ℚ)
    (dist : List ℚ → List ℚ → ℚ) (st : MMState) (now : ℚ) (userId : String)
    (query : String) (options : Option SearchOptions) : List Memory :=
  searchPipeline now options
    (VectorStore.searchMemories dist st.records (embedFn query) userId
      (effectiveLimit options * 2))

/-- `getMemoriesByCategory(userId, category)`: a search with
`{ category, limit: 20, threshold: 0 }` and an empty query. -/
def getMemoriesByCategory (embedFn : String → List ℚ)
    (dist : List ℚ → List ℚ → ℚ) (st : MMState) (now : ℚ) (userId : String)
    (category : MemoryCategory) : List Memory :=
  searchRelevantMemories embedFn dist st now userId ""
    (some { limit := some 20, threshold := some 0, category := some category,
            includeRelated := none })

end MemoryManager

/-! ## Error propagation (src/memory/*.ts, src/models/ollama.ts)

Provider and store calls can fail; a failure outcome is an
`Except String` (the thrown `Error`'s message).  The wrappers below
mirror the `try`/`catch` structure of the corresponding methods. -/

namespace VectorStore

/-- `searchMemories` rethrows any failure as
`` `Search failed: ${message}` ``: errors propagate to its caller. -/
def searchMemoriesE (dist : List ℚ → List ℚ → ℚ) (records : List VectorMemory)
    (embedOutcome : Except String (List ℚ)) (userId : String) (limit : ℕ) :
    Except String (List SearchResult) :=
  match embedOutcome with
  | Except.error e => Except.error ("Search failed: " ++ e)
  | Except.ok queryEmb => Except.ok (searchMemories dist records queryEmb userId limit)

end VectorStore

namespace MemoryManager

/-- `searchRelevantMemories` wraps its body in `try`/`catch` and the
catch branch returns `[]`: a failing provider or store call is
swallowed and surfaces as an empty result, not as an error. -/
def searchRelevantMemoriesE (now : ℚ) (options : Option SearchOptions)
    (searchOutcome : Except String (List SearchResult)) :
    Except String (List Memory) :=
  match searchOutcome with
  | Except.error _ => Except.ok []
  | Except.ok results => Except.ok (searchPipeline now options results)

/-- `addMemory` catches, logs and rethrows: a failing embedding call
propagates to the caller. -/
def addMemoryE (dist : List ℚ → List ℚ → ℚ) (st : MMState) (now : ℚ)
    (memory : MemoryInput) (embedOutcome : Except String (List ℚ)) :
    Except String (Nat × MMState) :=
  match embedOutcome with
  | Except.error e => Except.error e
  | Except.ok embedding => Except.ok (addMemoryWithEmb dist st now memory embedding)

end MemoryManager

/-! ## C4: re-ranking -/

/-- The weights `searchRelevantMemories` passes to `reRankResults`. -/
def c4opts : MemoryManager.ReRankOptions :=
  { similarityWeight := some (5 / 10), importanceWeight := some (3 / 10),
    recencyWeight := some (2 / 10) }

theorem compositeScore_c4opts (now : ℚ) (r : SearchResult) :
    MemoryManager.compositeScore now c4opts r =
      r.relevance * (5 / 10) + r.memory.importance * (3 / 10) +
        max 0 (1 - (now - r.memory.timestamp) / MemoryManager.oneYearMs) * (2 / 10) := by
  norm_num [MemoryManager.compositeScore, MemoryManager.orDefaultRat, c4opts]

def c4mem (i : Nat) (t : ℚ) : Memory :=
  { id := i, userId := "u", content := "m", type := MemoryType.preference,
    category := MemoryCategory.general, timestamp := t, sessionId := none,
    importance := 1 / 2, relevance := some (8 / 10), metadata := MetaData.empty }

/-- Retrieved first (scan order), age two years at query time. -/
def c4older : SearchResult :=
  { memory := c4mem 1 0, distance := 2 / 10, relevance := 8 / 10 }

/-- Retrieved second, age exactly one year at query time. -/
def c4newer : SearchResult :=
  { memory := c4mem 2 MemoryManager.oneYearMs, distance := 2 / 10, relevance := 8 / 10 }

def c4now : ℚ := 2 * MemoryManager.oneYearMs

/-- C4 (counterexample).  Two retrieved memories with equal relevance
and equal importance; the newer one is exactly one year old, the older
two years, so both recency scores are 0 and the composite scores tie at
11/20.  The stable sort then keeps the scan order, which lists the
older memory first: the more recent memory is *not* at or above the
older one, falsifying the claim's monotonicity statement for ages
beyond the one-year decay horizon. -/
theorem c4_counterexample :
    c4newer.relevance = c4older.relevance ∧
    c4newer.memory.importance = c4older.memory.importance ∧
    c4now - c4newer.memory.timestamp < c4now - c4older.memory.timestamp ∧
    MemoryManager.reRankResults c4now [c4older, c4newer] c4opts =
      [{ result := c4older, compositeScore := 11 / 20 },
       { result := c4newer, compositeScore := 11 / 20 }] ∧
    ¬ ([{ result := c4newer, compositeScore := 11 / 20 },
        { result := c4older, compositeScore := 11 / 20 }] : List ScoredResult).Sublist
        (MemoryManager.reRankResults c4now [c4older, c4newer] c4opts) := by
  have heq : MemoryManager.reRankResults c4now [c4older, c4newer] c4opts =
      [{ result := c4older, compositeScore := 11 / 20 },
       { result := c4newer, compositeScore := 11 / 20 }] := by
    norm_num [MemoryManager.reRankResults, MemoryManager.compositeScore,
      MemoryManager.orDefaultRat, MemoryManager.oneYearMs, sortDesc, insertDesc,
      c4opts, c4older, c4newer, c4mem, c4now]
  refine ⟨rfl, rfl, ?_, heq, ?_⟩
  · norm_num [c4newer, c4older, c4mem, c4now, MemoryManager.oneYearMs]
  · intro h
    rw [heq] at h
    have hlen := h.eq_of_length (by simp)
    injection hlen with h1 _
    have h2 := congrArg (fun s : ScoredResult => s.result.memory.id) h1
    simp [c4newer, c4older, c4mem] at h2

/-- C4 (amended).  For two retrieved memories `x` (newer) and `y`
(older) with equal relevance and equal importance: if the newer one is
less than one year old its composite score is strictly larger and the
stable sort places it strictly above the older one wherever the two sat
in the input; but if the newer one is one year old or more, both
recency scores are 0, the composite scores tie, and the stable sort
preserves the original scan order (whichever of the two came first
stays first). -/
theorem c4_amended (now : ℚ) (l : List SearchResult) (x y : SearchResult)
    (hsim : x.relevance = y.relevance)
    (himp : x.memory.importance = y.memory.importance)
    (hage : now - x.memory.timestamp < now - y.memory.timestamp) :
    ((now - x.memory.timestamp < MemoryManager.oneYearMs → x ∈ l → y ∈ l →
      [({ result := x, compositeScore := MemoryManager.compositeScore now c4opts x } : ScoredResult),
       { result := y, compositeScore := MemoryManager.compositeScore now c4opts y }].Sublist
        (MemoryManager.reRankResults now l c4opts)) ∧
    (MemoryManager.oneYearMs ≤ now - x.memory.timestamp → [x, y].Sublist l →
      [({ result := x, compositeScore := MemoryManager.compositeScore now c4opts x } : ScoredResult),
       { result := y, compositeScore := MemoryManager.compositeScore now c4opts y }].Sublist
        (MemoryManager.reRankResults now l c4opts)) ∧
    (MemoryManager.oneYearMs ≤ now - x.memory.timestamp → [y, x].Sublist l →
      [({ result := y, compositeScore := MemoryManager.compositeScore now c4opts y } : ScoredResult),
       ({ result := x, compositeScore := MemoryManager.compositeScore now c4opts x } : ScoredResult)].Sublist
        (MemoryManager.reRankResults now l c4opts))) := by
  have hY : (0 : ℚ) < MemoryManager.oneYearMs := by norm_num [MemoryManager.oneYearMs]
  refine ⟨?_, ?_, ?_⟩
  · -- newer strictly less than a year old: strict dominance
    intro hfresh hx hy
    have hlt : MemoryManager.compositeScore now c4opts y <
        MemoryManager.compositeScore now c4opts x := by
      rw [compositeScore_c4opts, compositeScore_c4opts, ← hsim, ← himp]
      have h1 : (0 : ℚ) < 1 - (now - x.memory.timestamp) / MemoryManager.oneYearMs := by
        rw [sub_pos, div_lt_one hY]
        exact hfresh
      have hmx : max 0 (1 - (now - x.memory.timestamp) / MemoryManager.oneYearMs) =
          1 - (now - x.memory.timestamp) / MemoryManager.oneYearMs :=
        max_eq_right h1.le
      have hyx : (1 : ℚ) - (now - y.memory.timestamp) / MemoryManager.oneYearMs <
          1 - (now - x.memory.timestamp) / MemoryManager.oneYearMs := by
        have := (div_lt_div_iff_of_pos_right hY).mpr hage
        linarith
      have hmax : max 0 (1 - (now - y.memory.timestamp) / MemoryManager.oneYearMs) <
          max 0 (1 - (now - x.memory.timestamp) / MemoryManager.oneYearMs) := by
        rw [hmx]
        exact max_lt h1 hyx
      have := mul_lt_mul_of_pos_right hmax (show (0 : ℚ) < 2 / 10 by norm_num)
      linarith
    simp only [MemoryManager.reRankResults]
    exact sortDesc_strict
      (List.mem_map_of_mem _ hx) (List.mem_map_of_mem _ hy) hlt
  all_goals
    intro hstale hsub
    have hrx : max 0 (1 - (now - x.memory.timestamp) / MemoryManager.oneYearMs) = 0 := by
      apply max_eq_left
      rw [sub_nonpos, le_div_iff₀ hY, one_mul]
      exact hstale
    have hry : max 0 (1 - (now - y.memory.timestamp) / MemoryManager.oneYearMs) = 0 := by
      apply max_eq_left
      rw [sub_nonpos, le_div_iff₀ hY, one_mul]
      linarith
    have hkeq : MemoryManager.compositeScore now c4opts x =
        MemoryManager.compositeScore now c4opts y := by
      rw [compositeScore_c4opts, compositeScore_c4opts, hsim, himp, hrx, hry]
    simp only [MemoryManager.reRankResults]
  case _ =>
    exact sortDesc_stable
      (List.Sublist.map
        (fun r : SearchResult =>
          ({ result := r, compositeScore := MemoryManager.compositeScore now c4opts r } : ScoredResult))
        hsub)
      (le_of_eq hkeq.symm)
  case _ =>
    exact sortDesc_stable
      (List.Sublist.map
        (fun r : SearchResult =>
          ({ result := r, compositeScore := MemoryManager.compositeScore now c4opts r } : ScoredResult))
        hsub)
      (le_of_eq hkeq)

theorem c4_amended_witness :
    (c4newer.relevance = c4older.relevance) ∧
    (c4newer.memory.importance = c4older.memory.importance) ∧
    (c4now - c4newer.memory.timestamp < c4now - c4older.memory.timestamp) ∧
    ((c4now - c4newer.memory.timestamp < MemoryManager.oneYearMs →
        c4newer ∈ [c4older, c4newer] → c4older ∈ [c4older, c4newer] →
      [({ result := c4newer, compositeScore := MemoryManager.compositeScore c4now c4opts c4newer } : ScoredResult),
       { result := c4older, compositeScore := MemoryManager.compositeScore c4now c4opts c4older }].Sublist
        (MemoryManager.reRankResults c4now [c4older, c4newer] c4opts)) ∧
    (MemoryManager.oneYearMs ≤ c4now - c4newer.memory.timestamp →
        [c4newer, c4older].Sublist [c4older, c4newer] →
      [({ result := c4newer, compositeScore := MemoryManager.compositeScore c4now c4opts c4newer } : ScoredResult),
       { result := c4older, compositeScore := MemoryManager.compositeScore c4now c4opts c4older }].Sublist
        (MemoryManager.reRankResults c4now [c4older, c4newer] c4opts)) ∧
    (MemoryManager.oneYearMs ≤ c4now - c4newer.memory.timestamp →
        [c4older, c4newer].Sublist [c4older, c4newer] →
      [({ result := c4older, compositeScore := MemoryManager.compositeScore c4now c4opts c4older } : ScoredResult),
       ({ result := c4newer, compositeScore := MemoryManager.compositeScore c4now c4opts c4newer } : ScoredResult)].Sublist
        (MemoryManager.reRankResults c4now [c4older, c4newer] c4opts))) :=
  ⟨rfl, rfl,
   by norm_num [c4newer, c4older, c4mem, c4now, MemoryManager.oneYearMs],
   c4_amended c4now [c4older, c4newer] c4newer c4older rfl rfl
     (by norm_num [c4newer, c4older, c4mem, c4now, MemoryManager.oneYearMs])⟩

/-! ## C2: conflict resolution -/

/-- `findConflictingMemory`'s scan returns the *first* memory, in the
store's native order, that is not a conversation, carries the same
fact-type tag, and differs case-insensitively — i.e. it is `List.find?`
with that predicate, so at most one memory is superseded per fact. -/
theorem findConflictLoop_eq_find (ft c : String) (l : List Memory) :
    MemoryManager.findConflictLoop ft c l =
      l.find? (fun m =>
        !(decide (m.type = MemoryType.conversation)) &&
        (decide (MemoryManager.detectFactType m.content = some ft) &&
         !(decide (lowerStr m.content = lowerStr c)))) := by
  induction l with
  | nil => rfl
  | cons m rest ih =>
    simp only [MemoryManager.findConflictLoop, List.find?]
    by_cases h1 : m.type = MemoryType.conversation
    · simp [h1, ih]
    · by_cases h2 : MemoryManager.detectFactType m.content = some ft
      · by_cases h3 : lowerStr m.content = lowerStr c
        · simp [h1, h2, h3, ih]
        · simp [h1, h2, h3]
      · simp [h1, h2, ih]

/-- The fact the keyword extractor produces for "my name is Alice". -/
def aliceFact : MemoryManager.ExtractedFact :=
  { content := "Customer\x27s name is Alice", importance := 19 / 20,
    type := MemoryType.preference, category := MemoryCategory.general,
    confidence := none }

def bobFact : MemoryManager.ExtractedFact :=
  { content := "Customer\x27s name is Bob", importance := 19 / 20,
    type := MemoryType.preference, category := MemoryCategory.general,
    confidence := none }

/-- Storing the Alice fact and then the Bob fact for the same user,
starting from an empty store. -/
def c2run (embedFn : String → List ℚ) (dist : List ℚ → List ℚ → ℚ)
    (t1 t2 : ℚ) (sid : Option String) (msg1 msg2 : String) : MMState :=
  MemoryManager.storeExtractedFact embedFn dist
    (MemoryManager.storeExtractedFact embedFn dist MMState.empty t1 "u" sid msg1 aliceFact)
    t2 "u" sid msg2 bobFact

set_option maxRecDepth 100000 in
/-- C2.  After storing "Customer's name is Alice" and then "Customer's
name is Bob" for the same user, the store holds exactly one memory:
Bob's, whose metadata records `replacedMemoryId` = the deleted Alice
memory's id (0) and `replacedAt` = the storing time.  Both contents are
name-tagged, so exactly one active name-tagged memory remains.  The
final conjunct shows the conflict scan is `List.find?` over the store's
native order: the first same-tag, case-insensitively-different memory
wins and at most one memory is superseded per new fact. -/
theorem c2_conflict_resolution (embedFn : String → List ℚ)
    (dist : List ℚ → List ℚ → ℚ) (t1 t2 : ℚ) (sid : Option String)
    (msg1 msg2 : String) :
    (c2run embedFn dist t1 t2 sid msg1 msg2).records =
      [{ id := 1, userId := "u", content := "Customer\x27s name is Bob",
         embedding := embedFn ("Customer\x27s name is Bob"),
         type := MemoryType.preference, category := MemoryCategory.general,
         timestamp := t2, sessionId := sid, importance := 19 / 20,
         metadata :=
           { extractedFrom := some "llm", originalMessage := some (msg2.take 100),
             confidence := none, replacedMemoryId := some 0,
             replacedAt := some t2 } }] ∧
    ((c2run embedFn dist t1 t2 sid msg1 msg2).records.filter (fun m =>
        decide (MemoryManager.detectFactType m.content = some "name"))).length = 1 ∧
    MemoryManager.detectFactType ("Customer\x27s name is Alice") = some "name" ∧
    MemoryManager.detectFactType ("Customer\x27s name is Bob") = some "name" ∧
    (∀ (ft c : String) (l : List Memory),
      MemoryManager.findConflictLoop ft c l =
        l.find? (fun m =>
          !(decide (m.type = MemoryType.conversation)) &&
          (decide (MemoryManager.detectFactType m.content = some ft) &&
           !(decide (lowerStr m.content = lowerStr c))))) :=
  ⟨rfl, rfl, by decide, by decide, findConflictLoop_eq_find⟩

/-! ## C3: deduplication on insert -/

/-- A concrete distance: 0 between equal embeddings, 1 otherwise
(cosine distance of identical vectors is 0). -/
def exDist (a b : List ℚ) : ℚ := if a = b then 0 else 1

/-- A concrete embedding function. -/
def exEmbed (s : String) : List ℚ := [(s.length : ℚ)]

/-- A stored *conversation* memory with content "hello". -/
def c3conv : VectorMemory :=
  { id := 0, userId := "u", content := "hello", embedding := exEmbed ("hello"),
    type := MemoryType.conversation, category := MemoryCategory.general,
    timestamp := 0, sessionId := none, importance := 1 / 2,
    metadata := MetaData.empty }

/-- A *preference* input with the same content for the same user. -/
def c3input : MemoryInput :=
  { userId := "u", content := "hello", type := MemoryType.preference,
    category := MemoryCategory.general, sessionId := none,
    importance := some (1 / 2), metadata := MetaData.empty }

/-- C3 (counterexample).  The dedup lookup of `addMemory` is *not*
scoped by `type`: inserting a `preference` memory whose content matches
an existing `conversation` memory of the same user is skipped, and the
conversation memory's id is returned.  Under the claim's description
(search scoped to the type when known) no duplicate would have been
found and the preference would have been inserted. -/
theorem c3_counterexample :
    MemoryManager.addMemory exEmbed exDist { records := [c3conv], nextId := 5 } 7 c3input =
      (0, { records := [c3conv], nextId := 5 }) ∧
    c3conv.type ≠ c3input.type := by
  constructor
  · norm_num [MemoryManager.addMemory, MemoryManager.addMemoryWithEmb,
      MemoryManager.findSimilarMemories, VectorStore.searchByEmbedding,
      VectorStore.knnQuery, VectorStore.sortAsc, sortDesc, insertDesc,
      VectorStore.matchesWhere, VectorStore.toSearchResult, Filters.onlyUser,
      VectorStore.addMemory, c3conv, c3input, exDist, exEmbed]
  · decide

/-- C3 (amended).  The pre-insert dedup search is scoped to the same
`userId` only — the filter's `type` (and `category`) slots are always
empty (first conjunct).  Insertion is idempotent under duplicate
content whenever the embedding metric gives identical content distance
0: storing the same content twice in sequence for the same user, from
an empty store, inserts once and the second `addMemory` call returns
the first call's id with the store unchanged. -/
theorem c3_amended (embedFn : String → List ℚ) (dist : List ℚ → List ℚ → ℚ)
    (input : MemoryInput) (now1 now2 : ℚ)
    (hdist : dist (embedFn input.content) (embedFn input.content) = 0) :
    (∀ (d : List ℚ → List ℚ → ℚ) (st : MMState) (m : VectorMemory),
      MemoryManager.findSimilarMemories d st m =
        VectorStore.searchByEmbedding d st.records m.embedding
          { userId := some m.userId, category := none, type := none,
            timestampGte := none, timestampLte := none } 5) ∧
    (MemoryManager.addMemory embedFn dist MMState.empty now1 input).1 = 0 ∧
    (MemoryManager.addMemory embedFn dist MMState.empty now1 input).2.records.length = 1 ∧
    (MemoryManager.addMemory embedFn dist
      (MemoryManager.addMemory embedFn dist MMState.empty now1 input).2 now2 input) =
      (0, (MemoryManager.addMemory embedFn dist MMState.empty now1 input).2) := by
  refine ⟨fun _ _ _ => rfl, rfl, rfl, ?_⟩
  simp [MemoryManager.addMemory, MemoryManager.addMemoryWithEmb,
    MemoryManager.findSimilarMemories, VectorStore.searchByEmbedding,
    VectorStore.knnQuery, VectorStore.sortAsc, sortDesc, insertDesc,
    VectorStore.matchesWhere, VectorStore.toSearchResult, Filters.onlyUser,
    VectorStore.addMemory, MMState.empty, hdist]
  norm_num

theorem c3_amended_witness :
    (exDist (exEmbed c3input.content) (exEmbed c3input.content) = 0) ∧
    ((∀ (d : List ℚ → List ℚ → ℚ) (st : MMState) (m : VectorMemory),
      MemoryManager.findSimilarMemories d st m =
        VectorStore.searchByEmbedding d st.records m.embedding
          { userId := some m.userId, category := none, type := none,
            timestampGte := none, timestampLte := none } 5) ∧
    (MemoryManager.addMemory exEmbed exDist MMState.empty 0 c3input).1 = 0 ∧
    (MemoryManager.addMemory exEmbed exDist MMState.empty 0 c3input).2.records.length = 1 ∧
    (MemoryManager.addMemory exEmbed exDist
      (MemoryManager.addMemory exEmbed exDist MMState.empty 0 c3input).2 1 c3input) =
      (0, (MemoryManager.addMemory exEmbed exDist MMState.empty 0 c3input).2)) :=
  ⟨by norm_num [exDist], c3_amended exEmbed exDist c3input 0 1 (by norm_num [exDist])⟩

/-! ## C8: error propagation -/

/-- C8 (counterexample).  A failing embedding call during memory
retrieval does *not* surface to the caller: `searchRelevantMemories`
catches every error and returns an empty list (`Except.ok []`), even
though the vector-store layer below it (`searchMemories`) rethrows the
failure as `` `Search failed: ...` ``. -/
theorem c8_counterexample :
    MemoryManager.searchRelevantMemoriesE 0 none (Except.error "embedding failed") =
      Except.ok [] ∧
    VectorStore.searchMemoriesE exDist [] (Except.error "embedding failed") "u" 5 =
      Except.error ("Search failed: embedding failed") :=
  ⟨rfl, rfl⟩

/-- C8 (amended).  `vectorStore.searchMemories` rethrows provider
failures, and `addMemory` propagates a failing embedding call to its
caller; but `searchRelevantMemories` catches every failure and returns
an empty result list instead of an error. -/
theorem c8_amended (e : String) (now : ℚ) (options : Option MemoryManager.SearchOptions)
    (dist : List ℚ → List ℚ → ℚ) (records : List VectorMemory) (userId : String)
    (limit : ℕ) (st : MMState) (memory : MemoryInput) :
    MemoryManager.searchRelevantMemoriesE now options (Except.error e) = Except.ok [] ∧
    VectorStore.searchMemoriesE dist records (Except.error e) userId limit =
      Except.error ("Search failed: " ++ e) ∧
    MemoryManager.addMemoryE dist st now memory (Except.error e) = Except.error e :=
  ⟨rfl, rfl, rfl⟩

/-! ## C10: falsy option defaults in search -/

/-- Whatever `searchPipeline` returns came from one of the raw search
results, passed the (defaulted) relevance threshold, and matched the
requested category. -/
theorem mem_searchPipeline (now : ℚ) (options : Option MemoryManager.SearchOptions)
    (results : List SearchResult) (m : Memory)
    (hm : m ∈ MemoryManager.searchPipeline now options results) :
    ∃ r, r ∈ results ∧ m = r.memory ∧
      MemoryManager.effectiveThreshold options ≤ r.relevance ∧
      (∀ c, options.bind (fun o => o.category) = some c → r.memory.category = c) := by
  simp only [MemoryManager.searchPipeline] at hm
  rcases List.mem_map.mp hm with ⟨s, hs, rfl⟩
  have hs1 := List.mem_of_mem_take hs
  rw [MemoryManager.reRankResults] at hs1
  have hs2 := mem_sortDesc.mp hs1
  rcases List.mem_map.mp hs2 with ⟨r, hr, rfl⟩
  have hr2 := List.mem_filter.mp hr
  rcases hr2 with ⟨hr3, hthr⟩
  simp only [decide_eq_true_eq] at hthr
  cases hcat : options.bind (fun o => o.category) with
  | none =>
    simp only [hcat] at hr3
    exact ⟨r, hr3, rfl, hthr, by intro c hc; cases hc⟩
  | some c =>
    simp only [hcat] at hr3
    have hr4 := List.mem_filter.mp hr3
    rcases hr4 with ⟨hr5, hc5⟩
    simp only [decide_eq_true_eq] at hc5
    refine ⟨r, hr5, rfl, hthr, ?_⟩
    intro c' hc'
    injection hc' with hcc
    rw [← hcc]
    exact hc5

/-- C10.  `searchRelevantMemories` replaces falsy options by their
defaults: `limit = 0` becomes 5 and `threshold = 0` becomes 0.7, so an
unfiltered search cannot be requested; in particular
`getMemoriesByCategory`, which passes `threshold: 0` and `limit: 20`,
fetches 40 records and actually filters its output at relevance ≥ 0.7
within the requested category. -/
theorem c10_falsy_defaults :
    (∀ o : MemoryManager.SearchOptions, o.limit = some 0 →
      MemoryManager.effectiveLimit (some o) = 5) ∧
    (∀ o : MemoryManager.SearchOptions, o.threshold = some 0 →
      MemoryManager.effectiveThreshold (some o) = 7 / 10) ∧
    (∀ (embedFn : String → List ℚ) (dist : List ℚ → List ℚ → ℚ) (st : MMState)
        (now : ℚ) (userId : String) (c : MemoryCategory) (m : Memory),
      m ∈ MemoryManager.getMemoriesByCategory embedFn dist st now userId c →
      ∃ r, r ∈ VectorStore.searchMemories dist st.records (embedFn "") userId 40 ∧
        m = r.memory ∧ 7 / 10 ≤ r.relevance ∧ r.memory.category = c) := by
  refine ⟨?_, ?_, ?_⟩
  · intro o ho
    simp [MemoryManager.effectiveLimit, MemoryManager.orDefaultNat, ho]
  · intro o ho
    simp [MemoryManager.effectiveThreshold, MemoryManager.orDefaultRat, ho]
  · intro embedFn dist st now userId c m hm
    rw [MemoryManager.getMemoriesByCategory, MemoryManager.searchRelevantMemories] at hm
    rcases mem_searchPipeline _ _ _ _ hm with ⟨r, hr, hmr, hthr, hcat⟩
    have hlim : MemoryManager.effectiveLimit
        (some { limit := some 20, threshold := some 0, category := some c,
                includeRelated := none }) = 20 := by
      simp [MemoryManager.effectiveLimit, MemoryManager.orDefaultNat]
    rw [hlim] at hr
    have hthr' : MemoryManager.effectiveThreshold
        (some { limit := some 20, threshold := some 0, category := some c,
                includeRelated := none }) = 7 / 10 := by
      simp [MemoryManager.effectiveThreshold, MemoryManager.orDefaultRat]
    rw [hthr'] at hthr
    exact ⟨r, hr, hmr, hthr, hcat c rfl⟩

def c10mem : VectorMemory :=
  { id := 0, userId := "u", content := "c", embedding := exEmbed (""),
    type := MemoryType.event, category := MemoryCategory.bug_report,
    timestamp := 0, sessionId := none, importance := 1 / 2,
    metadata := MetaData.empty }

def c10out : Memory :=
  { id := 0, userId := "u", content := "c", type := MemoryType.event,
    category := MemoryCategory.bug_report, timestamp := 0, sessionId := none,
    importance := 1 / 2, relevance := some 1, metadata := MetaData.empty }

theorem c10_falsy_defaults_witness :
    (({ limit := some 0, threshold := some 0, category := none,
        includeRelated := none } : MemoryManager.SearchOptions).limit = some 0) ∧
    MemoryManager.effectiveLimit
      (some { limit := some 0, threshold := some 0, category := none,
              includeRelated := none }) = 5 ∧
    MemoryManager.effectiveThreshold
      (some { limit := some 0, threshold := some 0, category := none,
              includeRelated := none }) = 7 / 10 ∧
    c10out ∈ MemoryManager.getMemoriesByCategory exEmbed exDist
      { records := [c10mem], nextId := 1 } 0 "u" MemoryCategory.bug_report ∧
    (∃ r, r ∈ VectorStore.searchMemories exDist [c10mem] (exEmbed ("")) "u" 40 ∧
      c10out = r.memory ∧ 7 / 10 ≤ r.relevance ∧
      r.memory.category = MemoryCategory.bug_report) := by
  have hmem : c10out ∈ MemoryManager.getMemoriesByCategory exEmbed exDist
      { records := [c10mem], nextId := 1 } 0 "u" MemoryCategory.bug_report := by
    norm_num [MemoryManager.getMemoriesByCategory, MemoryManager.searchRelevantMemories,
      MemoryManager.searchPipeline, MemoryManager.effectiveLimit,
      MemoryManager.effectiveThreshold, MemoryManager.orDefaultNat,
      MemoryManager.orDefaultRat, MemoryManager.reRankResults,
      MemoryManager.compositeScore, MemoryManager.oneYearMs,
      VectorStore.searchMemories, VectorStore.knnQuery, VectorStore.sortAsc,
      sortDesc, insertDesc, VectorStore.matchesWhere, VectorStore.toSearchResult,
      Filters.onlyUser, c10mem, c10out, exDist, exEmbed]
  refine ⟨rfl, c10_falsy_defaults.1 _ rfl, c10_falsy_defaults.2.1 _ rfl, hmem, ?_⟩
  exact c10_falsy_defaults.2.2 exEmbed exDist
    { records := [c10mem], nextId := 1 } 0 "u" MemoryCategory.bug_report c10out hmem

/-! ## Embedding cache (src/models/ollama.ts)

A JS `Map` iterates in insertion order; `set` on a fresh key appends,
`set` on an existing key updates in place (keeping its position),
`get` never reorders, and `delete(firstKey)` removes the oldest entry
(keys are unique in a `Map`).  The SHA-256 cache key is the black-box
`keyFn`; the Ollama embedding endpoint is the black-box `provider`. -/

namespace OllamaClient

structure CacheStats where
  cacheHits : ℕ
  cacheMisses : ℕ
  totalEmbeddings : ℕ
  totalChats : ℕ
deriving DecidableEq, Repr

structure CacheState where
  entries : List (String × List ℚ)
  stats : CacheStats
deriving DecidableEq, Repr

def cache0 : CacheState :=
  { entries := [],
    stats := { cacheHits := 0, cacheMisses := 0, totalEmbeddings := 0, totalChats := 0 } }

def MAX_CACHE_SIZE : ℕ := 1000

/-- JS `Map.prototype.set`: update in place if the key exists, append
otherwise. -/
def mapSet (l : List (String × List ℚ)) (k : String) (v : List ℚ) :
    List (String × List ℚ) :=
  if (List.lookup k l).isSome then
    l.map (fun p => if p.1 = k then (k, v) else p)
  else
    l ++ [(k, v)]

/-- `cacheEmbedding`: once the size reaches capacity, delete the
first-inserted key, then `set`. -/
def cacheEmbedding (keyFn : String → String) (st : CacheState) (text : String)
    (embedding : List ℚ) : CacheState :=
  let key := keyFn text
  let entries :=
    if MAX_CACHE_SIZE ≤ st.entries.length then
      match st.entries with
      | [] => st.entries
      | _ :: rest => rest
    else st.entries
  { st with entries := mapSet entries key embedding }

/-- `generateEmbedding(text, useCache = true)`: bump the counter, serve
a hit from the map without touching the entry list, or call the
provider and cache the result. -/
def generateEmbedding (keyFn : String → String) (provider : String → List ℚ)
    (useCache : Bool) (st : CacheState) (text : String) : List ℚ × CacheState :=
  let st := { st with stats :=
    { st.stats with totalEmbeddings := st.stats.totalEmbeddings + 1 } }
  if useCache then
    match List.lookup (keyFn text) st.entries with
    | some cached =>
      (cached, { st with stats :=
        { st.stats with cacheHits := st.stats.cacheHits + 1 } })
    | none =>
      let st := { st with stats :=
        { st.stats with cacheMisses := st.stats.cacheMisses + 1 } }
      let embedding := provider text
      (embedding, cacheEmbedding keyFn st text embedding)
  else
    (provider text, st)

/-- Sequentially embed (and hence insert) a list of texts through the
cache. -/
def insertAll (keyFn : String → String) (provider : String → List ℚ)
    (st : CacheState) (texts : List String) : CacheState :=
  texts.foldl (fun s t => (generateEmbedding keyFn provider true s t).2) st

theorem lookup_eq_none_of_not_mem {k : String} {l : List (String × List ℚ)}
    (h : k ∉ l.map Prod.fst) : List.lookup k l = none := by
  induction l with
  | nil => rfl
  | cons p rest ih =>
    simp only [List.map_cons, List.mem_cons] at h
    push_neg at h
    rcases h with ⟨h1, h2⟩
    simp only [List.lookup]
    have : (k == p.1) = false := by
      simp [h1]
    rw [this]
    exact ih h2

/-- Filling the cache below capacity never evicts: the entries are the
processed texts in insertion order. -/
theorem insertAll_no_evict (keyFn : String → String) (provider : String → List ℚ) :
    ∀ (ts : List String) (st : CacheState),
      (st.entries.map Prod.fst ++ ts.map keyFn).Nodup →
      st.entries.length + ts.length ≤ MAX_CACHE_SIZE →
      (insertAll keyFn provider st ts).entries =
        st.entries ++ ts.map (fun s => (keyFn s, provider s)) := by
  intro ts
  induction ts with
  | nil => intro st _ _; simp [insertAll]
  | cons t rest ih =>
    intro st hnodup hlen
    have hkey : keyFn t ∉ st.entries.map Prod.fst := by
      rw [List.nodup_append] at hnodup
      intro hmem
      exact hnodup.2.2 hmem (by simp)
    have hmiss : List.lookup (keyFn t) st.entries = none :=
      lookup_eq_none_of_not_mem hkey
    have hlt : st.entries.length < MAX_CACHE_SIZE := by
      simp only [List.length_cons] at hlen
      omega
    have hstep : (generateEmbedding keyFn provider true st t).2.entries =
        st.entries ++ [(keyFn t, provider t)] := by
      simp only [generateEmbedding, if_pos, hmiss]
      simp [cacheEmbedding, mapSet, hmiss, Nat.not_le.mpr hlt]
    simp only [insertAll, List.foldl_cons]
    have := ih (generateEmbedding keyFn provider true st t).2 ?_ ?_
    · rw [insertAll] at this
      rw [this, hstep]
      simp
    · rw [hstep]
      simp only [List.map_append, List.map_cons, List.map_nil]
      have : st.entries.map Prod.fst ++ [keyFn t] ++ rest.map keyFn =
          st.entries.map Prod.fst ++ keyFn t :: rest.map keyFn := by
        simp
      rw [this]
      exact hnodup
    · rw [hstep]
      simp only [List.length_append, List.length_cons] at hlen ⊢
      simp only [List.length_cons, List.length_nil] at *
      omega

end OllamaClient

/-- C9.  Inserting capacity + 1 (= 1001) distinct texts through the
cache evicts exactly the first-inserted entry: the final map holds
texts 2..1001 in insertion order.  Eviction is insertion-order (FIFO):
the second conjunct shows a cache read (hit) returns the cached vector
and leaves the entry list — and hence every entry's position — exactly
as it was, so reads between the insertions cannot refresh an entry. -/
theorem c9_fifo_eviction (keyFn : String → String) (provider : String → List ℚ)
    (ts : List String) (t : String) (hlen : ts.length = 1000)
    (hnodup : ((ts ++ [t]).map keyFn).Nodup) :
    (OllamaClient.insertAll keyFn provider OllamaClient.cache0 (ts ++ [t])).entries =
      ((ts.drop 1) ++ [t]).map (fun s => (keyFn s, provider s)) ∧
    (∀ (st : OllamaClient.CacheState) (text : String) (cached : List ℚ),
      List.lookup (keyFn text) st.entries = some cached →
      (OllamaClient.generateEmbedding keyFn provider true st text).1 = cached ∧
      (OllamaClient.generateEmbedding keyFn provider true st text).2.entries =
        st.entries) := by
  constructor
  · -- the eviction computation
    rcases ts with _ | ⟨h0, ts'⟩
    · simp at hlen
    have hnodup' : (OllamaClient.cache0.entries.map Prod.fst ++
        (h0 :: ts').map keyFn).Nodup := by
      simp only [OllamaClient.cache0, List.map_nil, List.nil_append]
      have hsub : ((h0 :: ts').map keyFn).Sublist (((h0 :: ts') ++ [t]).map keyFn) :=
        List.Sublist.map keyFn (List.sublist_append_left _ _)
      exact hnodup.sublist hsub
    have hfill := OllamaClient.insertAll_no_evict keyFn provider (h0 :: ts')
      OllamaClient.cache0 hnodup'
      (by simp only [OllamaClient.cache0, OllamaClient.MAX_CACHE_SIZE,
            List.length_cons, List.length_nil] at *
          omega)
    rw [show OllamaClient.cache0.entries = [] from rfl, List.nil_append] at hfill
    have hsplit : OllamaClient.insertAll keyFn provider OllamaClient.cache0
        ((h0 :: ts') ++ [t]) =
      (OllamaClient.generateEmbedding keyFn provider true
        (OllamaClient.insertAll keyFn provider OllamaClient.cache0 (h0 :: ts')) t).2 := by
      simp [OllamaClient.insertAll, List.foldl_append]
    rw [hsplit]
    set stA := OllamaClient.insertAll keyFn provider OllamaClient.cache0 (h0 :: ts')
      with hstA
    have hkeys : stA.entries.map Prod.fst = (h0 :: ts').map keyFn := by
      rw [hfill]
      simp [Function.comp_def]
    have hdisj : keyFn t ∉ (h0 :: ts').map keyFn := by
      rw [List.map_append] at hnodup
      rw [List.nodup_append] at hnodup
      intro hmem
      exact hnodup.2.2 hmem (by simp)
    have hmiss : List.lookup (keyFn t) stA.entries = none := by
      apply OllamaClient.lookup_eq_none_of_not_mem
      rw [hkeys]
      exact hdisj
    have hlenA : stA.entries.length = 1000 := by
      rw [hfill]
      simpa using hlen
    have hmiss2 : List.lookup (keyFn t)
        (ts'.map (fun s => (keyFn s, provider s))) = none := by
      apply OllamaClient.lookup_eq_none_of_not_mem
      intro hmem
      apply hdisj
      simp only [List.map_map] at hmem
      rcases List.mem_map.mp hmem with ⟨a, ha, hae⟩
      simp only [List.map_cons, List.mem_cons]
      right
      exact List.mem_map.mpr ⟨a, ha, hae⟩
    simp only [OllamaClient.generateEmbedding, hmiss]
    simp only [OllamaClient.cacheEmbedding, OllamaClient.mapSet]
    simp only [hlenA, OllamaClient.MAX_CACHE_SIZE]
    norm_num
    rw [hfill]
    simp only [List.map_cons]
    simp [hmiss2]
  · -- reads do not touch the entry list
    intro st text cached hhit
    simp [OllamaClient.generateEmbedding, hhit]

/-- Distinct texts for the eviction witness: `n` copies of `a`. -/
def natStr (n : ℕ) : String := String.mk (List.replicate n 'a')

theorem natStr_injective : Function.Injective natStr := by
  intro a b h
  have h2 := congrArg String.data h
  simp only [natStr] at h2
  have h3 := congrArg List.length h2
  simpa using h3

def c9texts : List String := (List.range 1000).map natStr

theorem c9_fifo_eviction_witness :
    (c9texts.length = 1000) ∧
    ((c9texts ++ [natStr 1000]).map id).Nodup ∧
    ((OllamaClient.insertAll id exEmbed OllamaClient.cache0
        (c9texts ++ [natStr 1000])).entries =
      ((c9texts.drop 1) ++ [natStr 1000]).map (fun s => (id s, exEmbed s)) ∧
    (∀ (st : OllamaClient.CacheState) (text : String) (cached : List ℚ),
      List.lookup (id text) st.entries = some cached →
      (OllamaClient.generateEmbedding id exEmbed true st text).1 = cached ∧
      (OllamaClient.generateEmbedding id exEmbed true st text).2.entries =
        st.entries)) := by
  have hlen : c9texts.length = 1000 := by
    simp [c9texts]
  have hnodup : ((c9texts ++ [natStr 1000]).map id).Nodup := by
    rw [List.map_id]
    have h4 : (List.range 1001).map natStr = c9texts ++ [natStr 1000] := by
      rw [List.range_succ]
      simp [c9texts]
    rw [← h4]
    exact List.Nodup.map natStr_injective (List.nodup_range 1001)
  exact ⟨hlen, hnodup, c9_fifo_eviction id exEmbed c9texts (natStr 1000) hlen hnodup⟩

/-! ## LLM fact validation (src/memory/memoryManager.ts)

`validateExtractedFact` receives untyped JSON produced by the chat
model.  We model JS values with `JVal`; an object is represented by the
five fields the function reads (any other field is never accessed).
`parseFloat` and `x || default` follow JS semantics: `NaN` and `0` are
falsy, `toLowerCase` on a non-string, non-nullish value throws a
`TypeError` (modelled with `Except`). -/

inductive JVal where
  | jstr (s : String)
  | jnum (q : ℚ)
  | jbool (b : Bool)
  | jnull
  | jundef
  | jarr (items : List JVal)
  | jobj (content type category importance confidence : JVal)
deriving Repr

/-- A JS number that can be `NaN` or infinite (`parseFloat("Infinity")`). -/
inductive FloatVal where
  | nan
  | val (q : ℚ)
  | inf
  | ninf
deriving DecidableEq, Repr

/-- Digits to a natural number. -/
def natOfDigits (l : List Char) : ℕ :=
  l.foldl (fun a c => a * 10 + (c.toNat - 48)) 0

/-- The unsigned part of `parseFloat`: `digits[.digits]` or `.digits`,
an optional exponent, trailing junk ignored. -/
def parseUnsigned (l : List Char) : FloatVal :=
  let intPart := l.takeWhile Char.isDigit
  let rest1 := l.drop intPart.length
  let fracPart :=
    match rest1 with
    | '.' :: r => r.takeWhile Char.isDigit
    | _ => []
  let rest2 :=
    match rest1 with
    | '.' :: r => r.drop fracPart.length
    | r => r
  if intPart = [] ∧ fracPart = [] then FloatVal.nan
  else
    let base : ℚ := (natOfDigits intPart : ℚ) +
      (natOfDigits fracPart : ℚ) / (10 : ℚ) ^ fracPart.length
    let expVal : Option ℤ :=
      match rest2 with
      | 'e' :: r | 'E' :: r =>
        match r with
        | '+' :: d => if (d.takeWhile Char.isDigit) = [] then none
                      else some (natOfDigits (d.takeWhile Char.isDigit) : ℤ)
        | '-' :: d => if (d.takeWhile Char.isDigit) = [] then none
                      else some (-(natOfDigits (d.takeWhile Char.isDigit) : ℤ))
        | d => if (d.takeWhile Char.isDigit) = [] then none
               else some (natOfDigits (d.takeWhile Char.isDigit) : ℤ)
      | _ => none
    match expVal with
    | none => FloatVal.val base
    | some e => FloatVal.val (base * (10 : ℚ) ^ e)

/-- JS `parseFloat` on a string: skip leading whitespace, optional
sign, `Infinity` or a decimal literal; `NaN` when nothing parses. -/
def parseDec (s : String) : FloatVal :=
  let l := s.data.dropWhile isSpaceChar
  match l with
  | '+' :: r =>
    if listLeads ("Infinity".data) r then FloatVal.inf else parseUnsigned r
  | '-' :: r =>
    if listLeads ("Infinity".data) r then FloatVal.ninf
    else
      match parseUnsigned r with
      | FloatVal.val q => FloatVal.val (-q)
      | v => v
  | r =>
    if listLeads ("Infinity".data) r then FloatVal.inf else parseUnsigned r

/-- JS `parseFloat` on an arbitrary value: the argument is coerced to a
string first, so an array parses as its first element does
(`String([x, ...])` is the comma-join) and objects give `NaN`. -/
def parseFloatJ : JVal → FloatVal
  | JVal.jnum q => FloatVal.val q
  | JVal.jstr s => parseDec s
  | JVal.jbool _ => FloatVal.nan
  | JVal.jnull => FloatVal.nan
  | JVal.jundef => FloatVal.nan
  | JVal.jobj _ _ _ _ _ => FloatVal.nan
  | JVal.jarr [] => FloatVal.nan
  | JVal.jarr (x :: _) => parseFloatJ x

/-- `x || d` on a number: `NaN` and `0` are falsy. -/
def numOrDefault (f : FloatVal) (d : ℚ) : FloatVal :=
  match f with
  | FloatVal.nan => FloatVal.val d
  | FloatVal.val q => if q = 0 then FloatVal.val d else FloatVal.val q
  | FloatVal.inf => FloatVal.inf
  | FloatVal.ninf => FloatVal.ninf

/-- `Math.min(Math.max(·, 0), 1)`.  (`numOrDefault` never yields `NaN`,
so the `NaN` branch is unreachable.) -/
def clampVal : FloatVal → ℚ
  | FloatVal.val q => min (max q 0) 1
  | FloatVal.inf => 1
  | FloatVal.ninf => 0
  | FloatVal.nan => 0

/-- `Math.min(Math.max(parseFloat(v) || d, 0), 1)`. -/
def jsClamp (v : JVal) (d : ℚ) : ℚ := clampVal (numOrDefault (parseFloatJ v) d)

/-- `v?.toLowerCase()`: `undefined` for nullish `v`, a `TypeError` for
any other non-string. -/
def optToLower : JVal → Except String (Option String)
  | JVal.jnull => Except.ok none
  | JVal.jundef => Except.ok none
  | JVal.jstr s => Except.ok (some (lowerStr s))
  | _ => Except.error "TypeError: toLowerCase is not a function"

namespace MemoryManager

def validTypes : List String :=
  ["conversation", "extracted_fact", "preference", "sentiment", "event"]

def validCategories : List String :=
  ["bug_report", "feature_request", "question", "feedback", "technical", "general"]

def memTypeOf (s : String) : MemoryType :=
  if s = "conversation" then MemoryType.conversation
  else if s = "extracted_fact" then MemoryType.extracted_fact
  else if s = "preference" then MemoryType.preference
  else if s = "sentiment" then MemoryType.sentiment
  else if s = "event" then MemoryType.event
  else MemoryType.extracted_fact

def memCatOf (s : String) : MemoryCategory :=
  if s = "bug_report" then MemoryCategory.bug_report
  else if s = "feature_request" then MemoryCategory.feature_request
  else if s = "question" then MemoryCategory.question
  else if s = "feedback" then MemoryCategory.feedback
  else if s = "technical" then MemoryCategory.technical
  else MemoryCategory.general

/-- `validateExtractedFact(fact)`: `Except.ok none` models a returned
`null` (fact dropped), `Except.error` a thrown `TypeError`. -/
def validateExtractedFact (fact : JVal) : Except String (Option ExtractedFact) :=
  match fact with
  | JVal.jobj content type category importance confidence =>
    match content with
    | JVal.jstr s =>
      if s = "" then Except.ok none
      else if jsTrim s = "" then Except.ok none
      else if 500 < s.length then Except.ok none
      else
        match optToLower type with
        | Except.error e => Except.error e
        | Except.ok tOpt =>
          let t :=
            match tOpt with
            | some tt => if validTypes.contains tt then tt else "extracted_fact"
            | none => "extracted_fact"
          match optToLower category with
          | Except.error e => Except.error e
          | Except.ok cOpt =>
            let c :=
              match cOpt with
              | some cc => if validCategories.contains cc then cc else "general"
              | none => "general"
            let importanceQ := jsClamp importance (1 / 2)
            let confidenceQ := jsClamp confidence (7 / 10)
            if confidenceQ < 1 / 2 then
              Except.ok none
            else
              Except.ok (some
                { content := jsTrim s, importance := importanceQ,
                  type := memTypeOf t, category := memCatOf c,
                  confidence := some confidenceQ })
    | _ => Except.ok none
  | _ => Except.ok none

/-- The `rawFacts.map(validate).filter(f => f !== null)` step: a thrown
`TypeError` aborts the whole map, a `null` is just dropped. -/
def validateAll : List JVal → Except String (List ExtractedFact)
  | [] => Except.ok []
  | v :: rest =>
    match validateExtractedFact v with
    | Except.error e => Except.error e
    | Except.ok r =>
      match validateAll rest with
      | Except.error e => Except.error e
      | Except.ok rs =>
        match r with
        | some f => Except.ok (f :: rs)
        | none => Except.ok rs

end MemoryManager

/-! ## Keyword-based fact extraction (fallback path) -/

/-- Case-insensitive scan for `pat` followed by a nonempty `[a-zA-Z]+`
capture, returning the capture from the original text (the regexes
`/my name is ([a-zA-Z]+)/i` etc.). -/
def capAfterCI (patLower : List Char) : List Char → Option (List Char)
  | [] => none
  | c :: rest =>
    if listLeads patLower ((c :: rest).map Char.toLower) then
      let cap := ((c :: rest).drop patLower.length).takeWhile Char.isAlpha
      if cap = [] then capAfterCI patLower rest else some cap
    else capAfterCI patLower rest

def matchCapture (pat : String) (s : String) : Option String :=
  (capAfterCI (pat.data.map Char.toLower) s.data).map String.mk

namespace MemoryManager

/-- `extractKeyFactsKeywordBased`: deterministic pattern-matching over
the lowercased user message, pushing up to five canned-template facts
with fixed importance weights. -/
def extractKeyFactsKeywordBased (userMessage : String) : List ExtractedFact :=
  let lowerMsg := lowerStr userMessage
  let rememberFacts :=
    if strIncludes lowerMsg ("remember") || strIncludes lowerMsg ("my name is") ||
        strIncludes lowerMsg ("call me") || strIncludes lowerMsg ("i am ") then
      let rememberWhat :=
        if strIncludes lowerMsg ("my name is") then
          match matchCapture ("my name is ") userMessage with
          | some name => "Customer\x27s name is " ++ name
          | none => userMessage
        else if strIncludes lowerMsg ("call me") then
          match matchCapture ("call me ") userMessage with
          | some name => "Customer prefers to be called " ++ name
          | none => userMessage
        else if strIncludes lowerMsg ("i am ") then
          match matchCapture ("i am ") userMessage with
          | some name =>
            if ["a", "the", "an", "having", "getting"].contains (lowerStr name) then
              userMessage
            else "Customer is " ++ name
          | none => userMessage
        else userMessage
      [{ content := rememberWhat, importance := 95 / 100,
         type := MemoryType.preference, category := MemoryCategory.general,
         confidence := none }]
    else []
  let bugFacts :=
    if strIncludes lowerMsg ("broken") || strIncludes lowerMsg ("not working") ||
        strIncludes lowerMsg ("error") || strIncludes lowerMsg ("bug") then
      [{ content := "Customer reported: " ++ userMessage, importance := 8 / 10,
         type := MemoryType.event, category := MemoryCategory.bug_report,
         confidence := none }]
    else []
  let featureFacts :=
    if strIncludes lowerMsg ("want") || strIncludes lowerMsg ("need") ||
        strIncludes lowerMsg ("would like") || strIncludes lowerMsg ("feature") then
      [{ content := "Customer requested: " ++ userMessage, importance := 7 / 10,
         type := MemoryType.event, category := MemoryCategory.feature_request,
         confidence := none }]
    else []
  let prefFacts :=
    if strIncludes lowerMsg ("prefer") || strIncludes lowerMsg ("like to") ||
        strIncludes lowerMsg ("developer") || strIncludes lowerMsg ("technical") then
      [{ content := "Customer preference: " ++ userMessage, importance := 6 / 10,
         type := MemoryType.preference, category := MemoryCategory.general,
         confidence := none }]
    else []
  let companyFacts :=
    if strIncludes lowerMsg ("company") || strIncludes lowerMsg ("organization") ||
        strIncludes lowerMsg ("work for") || strIncludes lowerMsg ("work at") then
      [{ content := "Customer info: " ++ userMessage, importance := 7 / 10,
         type := MemoryType.preference, category := MemoryCategory.general,
         confidence := none }]
    else []
  rememberFacts ++ bugFacts ++ featureFacts ++ prefFacts ++ companyFacts

end MemoryManager

/-! ## The LLM extraction path with fallback -/

/-- Strip one leading newline. -/
def dropLeadNl : List Char → List Char
  | '\n' :: l => l
  | l => l

theorem dropLeadNl_length_le (l : List Char) : (dropLeadNl l).length ≤ l.length := by
  unfold dropLeadNl
  split
  · simp
  · exact Nat.le_refl _

/-- `text.replace(/PAT\n?/g, '')` for a literal nonempty pattern
`p0 :: prest`. -/
def removeAllPat (p0 : Char) (prest : List Char) : List Char → List Char
  | [] => []
  | c :: rest =>
    if listLeads (p0 :: prest) (c :: rest) then
      removeAllPat p0 prest (dropLeadNl (rest.drop prest.length))
    else
      c :: removeAllPat p0 prest rest
termination_by l => l.length
decreasing_by
  · simp only [List.length_cons]
    have h1 := dropLeadNl_length_le (rest.drop prest.length)
    have h2 := List.length_drop prest.length rest
    omega
  · simp

/-- Does `l` end with `suf`? -/
def listTrails (suf l : List Char) : Bool := listLeads suf.reverse l.reverse

/-- `text.replace(/```\n?$/g, '')`. -/
def removeEndFence (l : List Char) : List Char :=
  if listTrails ("```\n".data) l then l.take (l.length - 4)
  else if listTrails ("```".data) l then l.take (l.length - 3)
  else l

/-- The Markdown code-fence stripping of `extractKeyFacts`. -/
def stripCodeFences (response : String) : String :=
  let jsonText := jsTrim response
  if listLeads ("```json".data) jsonText.data then
    String.mk (removeEndFence (removeAllPat '`' ("``json".data) jsonText.data))
  else if listLeads ("```".data) jsonText.data then
    String.mk (removeEndFence (removeAllPat '`' ("``".data) jsonText.data))
  else jsonText

namespace MemoryManager

/-- `extractKeyFacts`: ask the chat model (outcome supplied), strip
code fences, `JSON.parse` (the black-box parser is supplied), require
an array, validate each fact; *any* failure — provider error, parse
failure, non-array reply, or a validation `TypeError` — falls back to
the keyword extractor. -/
def extractKeyFacts (chatOutcome : Except String String)
    (jsonParse : String → Option JVal) (userMessage : String) :
    List ExtractedFact :=
  match chatOutcome with
  | Except.error _ => extractKeyFactsKeywordBased userMessage
  | Except.ok response =>
    match jsonParse (stripCodeFences response) with
    | none => extractKeyFactsKeywordBased userMessage
    | some (JVal.jarr rawFacts) =>
      match validateAll rawFacts with
      | Except.error _ => extractKeyFactsKeywordBased userMessage
      | Except.ok validatedFacts => validatedFacts
    | some _ => extractKeyFactsKeywordBased userMessage

end MemoryManager

/-- Is the parsed value an array? -/
def JVal.isArr : JVal → Bool
  | JVal.jarr _ => true
  | _ => false

/-- C7.  If the LLM extraction path fails — provider error, JSON parse
failure, or a reply that is not an array — `extractKeyFacts` falls back
to the deterministic keyword extractor.  The fallback is a total
function that may return an empty list ("hello" yields none), and every
fact it emits is one of the five canned templates with the fixed
importance weights: 0.95 (remember/name commands, preference/general),
0.8 (bug reports), 0.7 (feature requests and company info), 0.6
(preferences). -/
theorem c7_keyword_fallback :
    (∀ (e : String) (p : String → Option JVal) (msg : String),
      MemoryManager.extractKeyFacts (Except.error e) p msg =
        MemoryManager.extractKeyFactsKeywordBased msg) ∧
    (∀ (r : String) (p : String → Option JVal) (msg : String),
      p (stripCodeFences r) = none →
      MemoryManager.extractKeyFacts (Except.ok r) p msg =
        MemoryManager.extractKeyFactsKeywordBased msg) ∧
    (∀ (r : String) (p : String → Option JVal) (msg : String) (v : JVal),
      p (stripCodeFences r) = some v → v.isArr = false →
      MemoryManager.extractKeyFacts (Except.ok r) p msg =
        MemoryManager.extractKeyFactsKeywordBased msg) ∧
    (MemoryManager.extractKeyFactsKeywordBased ("hello") = []) ∧
    (∀ (msg : String) (f : MemoryManager.ExtractedFact),
      f ∈ MemoryManager.extractKeyFactsKeywordBased msg →
      (f.importance = 95 / 100 ∧ f.type = MemoryType.preference ∧
        f.category = MemoryCategory.general) ∨
      (f.importance = 8 / 10 ∧ f.type = MemoryType.event ∧
        f.category = MemoryCategory.bug_report) ∨
      (f.importance = 7 / 10 ∧ f.type = MemoryType.event ∧
        f.category = MemoryCategory.feature_request) ∨
      (f.importance = 6 / 10 ∧ f.type = MemoryType.preference ∧
        f.category = MemoryCategory.general) ∨
      (f.importance = 7 / 10 ∧ f.type = MemoryType.preference ∧
        f.category = MemoryCategory.general)) := by
  refine ⟨fun _ _ _ => rfl, ?_, ?_, by decide, ?_⟩
  · intro r p msg hp
    simp [MemoryManager.extractKeyFacts, hp]
  · intro r p msg v hp hv
    simp only [MemoryManager.extractKeyFacts, hp]
    cases v <;> simp [JVal.isArr] at hv ⊢
  · intro msg f hf
    simp only [MemoryManager.extractKeyFactsKeywordBased, List.mem_append] at hf
    rcases hf with (((h | h) | h) | h) | h
    · split at h
      · simp only [List.mem_singleton] at h
        subst h
        exact Or.inl ⟨rfl, rfl, rfl⟩
      · simp at h
    · split at h
      · simp only [List.mem_singleton] at h
        subst h
        exact Or.inr (Or.inl ⟨rfl, rfl, rfl⟩)
      · simp at h
    · split at h
      · simp only [List.mem_singleton] at h
        subst h
        exact Or.inr (Or.inr (Or.inl ⟨rfl, rfl, rfl⟩))
      · simp at h
    · split at h
      · simp only [List.mem_singleton] at h
        subst h
        exact Or.inr (Or.inr (Or.inr (Or.inl ⟨rfl, rfl, rfl⟩)))
      · simp at h
    · split at h
      · simp only [List.mem_singleton] at h
        subst h
        exact Or.inr (Or.inr (Or.inr (Or.inr ⟨rfl, rfl, rfl⟩)))
      · simp at h

def c7prefFact : MemoryManager.ExtractedFact :=
  { content := "Customer preference: I prefer tabs", importance := 6 / 10,
    type := MemoryType.preference, category := MemoryCategory.general,
    confidence := none }

theorem c7_keyword_fallback_witness :
    ((fun _ : String => (none : Option JVal)) (stripCodeFences ("nope")) = none) ∧
    (MemoryManager.extractKeyFacts (Except.ok ("nope")) (fun _ => none) ("x") =
      MemoryManager.extractKeyFactsKeywordBased ("x")) ∧
    ((fun _ : String => some JVal.jnull) (stripCodeFences ("nope")) = some JVal.jnull) ∧
    (JVal.jnull.isArr = false) ∧
    (MemoryManager.extractKeyFacts (Except.ok ("nope")) (fun _ => some JVal.jnull) ("x") =
      MemoryManager.extractKeyFactsKeywordBased ("x")) ∧
    (c7prefFact ∈ MemoryManager.extractKeyFactsKeywordBased ("I prefer tabs")) ∧
    ((c7prefFact.importance = 95 / 100 ∧ c7prefFact.type = MemoryType.preference ∧
        c7prefFact.category = MemoryCategory.general) ∨
      (c7prefFact.importance = 8 / 10 ∧ c7prefFact.type = MemoryType.event ∧
        c7prefFact.category = MemoryCategory.bug_report) ∨
      (c7prefFact.importance = 7 / 10 ∧ c7prefFact.type = MemoryType.event ∧
        c7prefFact.category = MemoryCategory.feature_request) ∨
      (c7prefFact.importance = 6 / 10 ∧ c7prefFact.type = MemoryType.preference ∧
        c7prefFact.category = MemoryCategory.general) ∨
      (c7prefFact.importance = 7 / 10 ∧ c7prefFact.type = MemoryType.preference ∧
        c7prefFact.category = MemoryCategory.general)) := by
  have hmem : c7prefFact ∈ MemoryManager.extractKeyFactsKeywordBased ("I prefer tabs") := by
    rw [show MemoryManager.extractKeyFactsKeywordBased ("I prefer tabs") =
      [c7prefFact] from rfl]
    exact List.mem_singleton_self _
  refine ⟨rfl, c7_keyword_fallback.2.1 ("nope") (fun _ => none) ("x") rfl,
    rfl, rfl,
    c7_keyword_fallback.2.2.1 ("nope") (fun _ => some JVal.jnull) ("x") JVal.jnull rfl rfl,
    hmem,
    c7_keyword_fallback.2.2.2.2 ("I prefer tabs") c7prefFact hmem⟩

/-! ## C6: fact validation -/

theorem clampVal_nonneg (f : FloatVal) : 0 ≤ clampVal f := by
  cases f with
  | val q => exact le_min (le_max_right q 0) (by norm_num)
  | _ => simp [clampVal]

theorem clampVal_le_one (f : FloatVal) : clampVal f ≤ 1 := by
  cases f with
  | val q => exact min_le_right _ _
  | _ => simp [clampVal]

theorem jsClamp_nonneg (v : JVal) (d : ℚ) : 0 ≤ jsClamp v d :=
  clampVal_nonneg _

theorem jsClamp_le_one (v : JVal) (d : ℚ) : jsClamp v d ≤ 1 :=
  clampVal_le_one _

theorem jsClamp_num_zero (d : ℚ) : jsClamp (JVal.jnum 0) d = min (max d 0) 1 := by
  simp [jsClamp, parseFloatJ, numOrDefault, clampVal]

theorem jsClamp_undef (d : ℚ) : jsClamp JVal.jundef d = min (max d 0) 1 := by
  simp [jsClamp, parseFloatJ, numOrDefault, clampVal]

theorem jsClamp_num (q d : ℚ) (h : q ≠ 0) :
    jsClamp (JVal.jnum q) d = min (max q 0) 1 := by
  simp [jsClamp, parseFloatJ, numOrDefault, clampVal, h]

/-- Dropping a fact whose content fails a guard. -/
theorem validate_content_guard (s : String) (t c i cf : JVal)
    (h : s = "" ∨ jsTrim s = "" ∨ 500 < s.length) :
    MemoryManager.validateExtractedFact (JVal.jobj (JVal.jstr s) t c i cf) =
      Except.ok none := by
  simp only [MemoryManager.validateExtractedFact]
  rcases h with h1 | h2 | h3
  · rw [if_pos h1]
  · by_cases h1 : s = ""
    · rw [if_pos h1]
    · rw [if_neg h1, if_pos h2]
  · by_cases h1 : s = ""
    · rw [if_pos h1]
    · by_cases h2 : jsTrim s = ""
      · rw [if_neg h1, if_pos h2]
      · rw [if_neg h1, if_neg h2, if_pos h3]

/-- Evaluation of `validateExtractedFact` on an object whose content is
a non-empty, short string and whose type/category fields are strings. -/
theorem validate_jstr_eval (s ts cs : String) (i cf : JVal)
    (h1 : ¬ s = "") (h2 : ¬ jsTrim s = "") (h3 : ¬ 500 < s.length) :
    MemoryManager.validateExtractedFact
        (JVal.jobj (JVal.jstr s) (JVal.jstr ts) (JVal.jstr cs) i cf) =
      if jsClamp cf (7 / 10) < 1 / 2 then Except.ok none
      else Except.ok (some
        { content := jsTrim s, importance := jsClamp i (1 / 2),
          type := MemoryManager.memTypeOf
            (if MemoryManager.validTypes.contains (lowerStr ts) then lowerStr ts
             else "extracted_fact"),
          category := MemoryManager.memCatOf
            (if MemoryManager.validCategories.contains (lowerStr cs) then lowerStr cs
             else "general"),
          confidence := some (jsClamp cf (7 / 10)) }) := by
  simp only [MemoryManager.validateExtractedFact, optToLower]
  rw [if_neg h1, if_neg h2, if_neg h3]

/-- An LLM fact with confidence 0. -/
def c6rawConf0 : JVal :=
  JVal.jobj (JVal.jstr "User prefers dark mode") (JVal.jstr "preference")
    (JVal.jstr "general") (JVal.jnum (9 / 10)) (JVal.jnum 0)

/-- An LLM fact with importance 0. -/
def c6rawImp0 : JVal :=
  JVal.jobj (JVal.jstr "User prefers dark mode") (JVal.jstr "preference")
    (JVal.jstr "general") (JVal.jnum 0) (JVal.jnum (9 / 10))

/-- C6 (counterexample).  `parseFloat(x) || default` treats the number
0 as falsy.  A fact whose raw confidence is 0 — which the claim says
must be rejected outright (0 < 0.5) — is instead *accepted* with the
default confidence 0.7; and a fact whose raw importance is 0 — which
the claim says is clamped to 0 — gets the default importance 0.5. -/
theorem c6_counterexample :
    ((0 : ℚ) < 1 / 2) ∧
    MemoryManager.validateExtractedFact c6rawConf0 =
      Except.ok (some
        { content := "User prefers dark mode", importance := 9 / 10,
          type := MemoryType.preference, category := MemoryCategory.general,
          confidence := some (7 / 10) }) ∧
    MemoryManager.validateExtractedFact c6rawImp0 =
      Except.ok (some
        { content := "User prefers dark mode", importance := 1 / 2,
          type := MemoryType.preference, category := MemoryCategory.general,
          confidence := some (9 / 10) }) := by
  refine ⟨by norm_num, ?_, ?_⟩
  · rw [show c6rawConf0 = JVal.jobj (JVal.jstr "User prefers dark mode")
      (JVal.jstr "preference") (JVal.jstr "general") (JVal.jnum (9 / 10))
      (JVal.jnum 0) from rfl]
    rw [validate_jstr_eval _ _ _ _ _ (by decide) (by decide) (by decide)]
    rw [jsClamp_num_zero, jsClamp_num (9 / 10) (1 / 2) (by norm_num)]
    rw [if_neg (by rw [max_eq_left (by norm_num), min_eq_left (by norm_num)]; norm_num)]
    simp only [Except.ok.injEq, Option.some.injEq, MemoryManager.ExtractedFact.mk.injEq]
    refine ⟨by decide, ?_, by decide, by decide, ?_⟩
    · rw [max_eq_left (by norm_num), min_eq_left (by norm_num)]
    · rw [max_eq_left (by norm_num), min_eq_left (by norm_num)]
  · rw [show c6rawImp0 = JVal.jobj (JVal.jstr "User prefers dark mode")
      (JVal.jstr "preference") (JVal.jstr "general") (JVal.jnum 0)
      (JVal.jnum (9 / 10)) from rfl]
    rw [validate_jstr_eval _ _ _ _ _ (by decide) (by decide) (by decide)]
    rw [jsClamp_num_zero, jsClamp_num (9 / 10) (7 / 10) (by norm_num)]
    rw [if_neg (by rw [max_eq_left (by norm_num), min_eq_left (by norm_num)]; norm_num)]
    simp only [Except.ok.injEq, Option.some.injEq, MemoryManager.ExtractedFact.mk.injEq]
    refine ⟨by decide, ?_, by decide, by decide, ?_⟩
    · rw [max_eq_left (by norm_num), min_eq_left (by norm_num)]
    · rw [max_eq_left (by norm_num), min_eq_left (by norm_num)]

/-- The `type` string after lowercasing, enum validation and
defaulting. -/
def effTypeName (tOpt : Option String) : String :=
  match tOpt with
  | some tt => if MemoryManager.validTypes.contains tt then tt else "extracted_fact"
  | none => "extracted_fact"

/-- The `category` string after lowercasing, enum validation and
defaulting. -/
def effCatName (cOpt : Option String) : String :=
  match cOpt with
  | some cc => if MemoryManager.validCategories.contains cc then cc else "general"
  | none => "general"

/-- Evaluation of `validateExtractedFact` when neither enum access
throws. -/
theorem validate_eval_ok (s : String) (t c i cf : JVal) (tOpt cOpt : Option String)
    (ht : optToLower t = Except.ok tOpt) (hc : optToLower c = Except.ok cOpt)
    (h1 : ¬ s = "") (h2 : ¬ jsTrim s = "") (h3 : ¬ 500 < s.length) :
    MemoryManager.validateExtractedFact (JVal.jobj (JVal.jstr s) t c i cf) =
      if jsClamp cf (7 / 10) < 1 / 2 then Except.ok none
      else Except.ok (some
        { content := jsTrim s, importance := jsClamp i (1 / 2),
          type := MemoryManager.memTypeOf (effTypeName tOpt),
          category := MemoryManager.memCatOf (effCatName cOpt),
          confidence := some (jsClamp cf (7 / 10)) }) := by
  simp only [MemoryManager.validateExtractedFact]
  rw [if_neg h1, if_neg h2, if_neg h3, ht, hc]
  rfl

/-- A `TypeError` on the `type` field propagates. -/
theorem validate_eval_errType (s : String) (t c i cf : JVal) (e : String)
    (ht : optToLower t = Except.error e)
    (h1 : ¬ s = "") (h2 : ¬ jsTrim s = "") (h3 : ¬ 500 < s.length) :
    MemoryManager.validateExtractedFact (JVal.jobj (JVal.jstr s) t c i cf) =
      Except.error e := by
  simp only [MemoryManager.validateExtractedFact]
  rw [if_neg h1, if_neg h2, if_neg h3, ht]

/-- A `TypeError` on the `category` field propagates. -/
theorem validate_eval_errCat (s : String) (t c i cf : JVal) (tOpt : Option String)
    (e : String) (ht : optToLower t = Except.ok tOpt)
    (hc : optToLower c = Except.error e)
    (h1 : ¬ s = "") (h2 : ¬ jsTrim s = "") (h3 : ¬ 500 < s.length) :
    MemoryManager.validateExtractedFact (JVal.jobj (JVal.jstr s) t c i cf) =
      Except.error e := by
  simp only [MemoryManager.validateExtractedFact]
  rw [if_neg h1, if_neg h2, if_neg h3, ht, hc]

/-- If a fact was accepted, its content passed all three guards. -/
theorem validate_some_content_ok (s : String) (t c i cf : JVal)
    (f : MemoryManager.ExtractedFact)
    (h : MemoryManager.validateExtractedFact (JVal.jobj (JVal.jstr s) t c i cf) =
      Except.ok (some f)) :
    ¬ s = "" ∧ ¬ jsTrim s = "" ∧ ¬ 500 < s.length := by
  refine ⟨?_, ?_, ?_⟩ <;> intro hbad
  · rw [validate_content_guard s _ _ _ _ (Or.inl hbad)] at h
    simp at h
  · rw [validate_content_guard s _ _ _ _ (Or.inr (Or.inl hbad))] at h
    simp at h
  · rw [validate_content_guard s _ _ _ _ (Or.inr (Or.inr hbad))] at h
    simp at h

/-- C6 (amended).  Validation of an LLM-produced fact behaves as: a
fact whose content is missing, not a string, empty, or longer than 500
characters is dropped (without aborting the batch); an invalid `type`
string defaults to `extracted_fact` and an invalid `category` string to
`general`; `importance` and `confidence` are run through
`parseFloat(x) || default` and then clamped to [0, 1] — so a value that
is missing, unparsable, *or equal to 0* is replaced by the default
(0.5 resp. 0.7); the fact is rejected only when the *defaulted*
confidence is below 0.5, so a raw confidence of 0 is never rejected;
accepted facts always carry importance in [0, 1] and confidence in
[0.5, 1]; and a dropped fact never aborts the rest of the batch. -/
theorem c6_amended :
    (∀ (t c i cf : JVal), MemoryManager.validateExtractedFact
        (JVal.jobj JVal.jundef t c i cf) = Except.ok none) ∧
    (∀ (q : ℚ) (t c i cf : JVal), MemoryManager.validateExtractedFact
        (JVal.jobj (JVal.jnum q) t c i cf) = Except.ok none) ∧
    (∀ (t c i cf : JVal), MemoryManager.validateExtractedFact
        (JVal.jobj (JVal.jstr "") t c i cf) = Except.ok none) ∧
    (∀ (s : String) (t c i cf : JVal), 500 < s.length →
      MemoryManager.validateExtractedFact (JVal.jobj (JVal.jstr s) t c i cf) =
        Except.ok none) ∧
    (∀ (s ts cs : String) (i cf : JVal) (f : MemoryManager.ExtractedFact),
      MemoryManager.validateExtractedFact
          (JVal.jobj (JVal.jstr s) (JVal.jstr ts) (JVal.jstr cs) i cf) =
        Except.ok (some f) →
      MemoryManager.validTypes.contains (lowerStr ts) = false →
      f.type = MemoryType.extracted_fact) ∧
    (∀ (s ts cs : String) (i cf : JVal) (f : MemoryManager.ExtractedFact),
      MemoryManager.validateExtractedFact
          (JVal.jobj (JVal.jstr s) (JVal.jstr ts) (JVal.jstr cs) i cf) =
        Except.ok (some f) →
      MemoryManager.validCategories.contains (lowerStr cs) = false →
      f.category = MemoryCategory.general) ∧
    ((∀ d : ℚ, jsClamp JVal.jundef d = min (max d 0) 1) ∧
     (∀ d : ℚ, jsClamp (JVal.jnum 0) d = min (max d 0) 1) ∧
     (∀ q d : ℚ, q ≠ 0 → jsClamp (JVal.jnum q) d = min (max q 0) 1)) ∧
    (∀ (s ts cs : String) (i cf : JVal), ¬ s = "" → ¬ jsTrim s = "" →
      ¬ 500 < s.length → jsClamp cf (7 / 10) < 1 / 2 →
      MemoryManager.validateExtractedFact
          (JVal.jobj (JVal.jstr s) (JVal.jstr ts) (JVal.jstr cs) i cf) =
        Except.ok none) ∧
    (∀ (v : JVal) (f : MemoryManager.ExtractedFact),
      MemoryManager.validateExtractedFact v = Except.ok (some f) →
      0 ≤ f.importance ∧ f.importance ≤ 1 ∧
        ∃ q, f.confidence = some q ∧ 1 / 2 ≤ q ∧ q ≤ 1) ∧
    (∀ (pre post : List JVal) (v : JVal),
      MemoryManager.validateExtractedFact v = Except.ok none →
      MemoryManager.validateAll (pre ++ v :: post) =
        MemoryManager.validateAll (pre ++ post)) := by
  refine ⟨fun _ _ _ _ => rfl, fun _ _ _ _ _ => rfl, ?_, ?_, ?_, ?_,
    ⟨jsClamp_undef, jsClamp_num_zero, jsClamp_num⟩, ?_, ?_, ?_⟩
  · intro t c i cf
    exact validate_content_guard "" t c i cf (Or.inl rfl)
  · intro s t c i cf hlen
    exact validate_content_guard s t c i cf (Or.inr (Or.inr hlen))
  · -- invalid type string defaults to extracted_fact
    intro s ts cs i cf f h hts
    rcases validate_some_content_ok s _ _ _ _ f h with ⟨h1, h2, h3⟩
    rw [validate_eval_ok s (JVal.jstr ts) (JVal.jstr cs) i cf
      (some (lowerStr ts)) (some (lowerStr cs)) rfl rfl h1 h2 h3] at h
    split_ifs at h with h4
    · simp at h
    · simp only [Except.ok.injEq, Option.some.injEq] at h
      subst h
      simp only [effTypeName, hts, Bool.false_eq_true, if_false]
      decide
  · -- invalid category string defaults to general
    intro s ts cs i cf f h hcs
    rcases validate_some_content_ok s _ _ _ _ f h with ⟨h1, h2, h3⟩
    rw [validate_eval_ok s (JVal.jstr ts) (JVal.jstr cs) i cf
      (some (lowerStr ts)) (some (lowerStr cs)) rfl rfl h1 h2 h3] at h
    split_ifs at h with h4
    · simp at h
    · simp only [Except.ok.injEq, Option.some.injEq] at h
      subst h
      simp only [effCatName, hcs, Bool.false_eq_true, if_false]
      decide
  · -- rejection uses the defaulted confidence
    intro s ts cs i cf h1 h2 h3 hrej
    rw [validate_eval_ok s (JVal.jstr ts) (JVal.jstr cs) i cf
      (some (lowerStr ts)) (some (lowerStr cs)) rfl rfl h1 h2 h3]
    rw [if_pos hrej]
  · -- accepted facts are clamped and above the confidence threshold
    intro v f h
    cases v with
    | jstr s => simp [MemoryManager.validateExtractedFact] at h
    | jnum q => simp [MemoryManager.validateExtractedFact] at h
    | jbool b => simp [MemoryManager.validateExtractedFact] at h
    | jnull => simp [MemoryManager.validateExtractedFact] at h
    | jundef => simp [MemoryManager.validateExtractedFact] at h
    | jarr l => simp [MemoryManager.validateExtractedFact] at h
    | jobj content t c i cf =>
      cases content with
      | jstr s =>
        rcases validate_some_content_ok s _ _ _ _ f h with ⟨h1, h2, h3⟩
        rcases ht : optToLower t with e | tOpt
        · rw [validate_eval_errType s t c i cf e ht h1 h2 h3] at h
          simp at h
        rcases hc : optToLower c with e | cOpt
        · rw [validate_eval_errCat s t c i cf tOpt e ht hc h1 h2 h3] at h
          simp at h
        rw [validate_eval_ok s t c i cf tOpt cOpt ht hc h1 h2 h3] at h
        split_ifs at h with h4
        · simp at h
        · simp only [Except.ok.injEq, Option.some.injEq] at h
          subst h
          push_neg at h4
          exact ⟨jsClamp_nonneg _ _, jsClamp_le_one _ _,
            jsClamp cf (7 / 10), rfl, h4, jsClamp_le_one _ _⟩
      | jnum q => simp [MemoryManager.validateExtractedFact] at h
      | jbool b => simp [MemoryManager.validateExtractedFact] at h
      | jnull => simp [MemoryManager.validateExtractedFact] at h
      | jundef => simp [MemoryManager.validateExtractedFact] at h
      | jarr l => simp [MemoryManager.validateExtractedFact] at h
      | jobj a b d e g => simp [MemoryManager.validateExtractedFact] at h
  · -- a dropped fact does not abort the batch
    intro pre post v hnone
    induction pre with
    | nil =>
      simp only [List.nil_append, MemoryManager.validateAll, hnone]
      cases hvp : MemoryManager.validateAll post with
      | error e => rfl
      | ok rs => rfl
    | cons p pre' ih =>
      cases hvp : MemoryManager.validateExtractedFact p with
      | error e =>
        simp only [List.cons_append, MemoryManager.validateAll, hvp]
      | ok r =>
        simp only [List.cons_append, MemoryManager.validateAll, hvp]
        rw [show pre'.append (v :: post) = pre' ++ (v :: post) from rfl,
          show pre'.append post = pre' ++ post from rfl, ih]

/-- An accepted fact with an invalid `type` string. -/
def c6raw1 : JVal :=
  JVal.jobj (JVal.jstr "x") (JVal.jstr "banana") (JVal.jstr "general")
    JVal.jundef JVal.jundef

def c6f0 : MemoryManager.ExtractedFact :=
  { content := "x", importance := 1 / 2, type := MemoryType.extracted_fact,
    category := MemoryCategory.general, confidence := some (7 / 10) }

theorem c6_amended_witness :
    (500 < (String.mk (List.replicate 501 'a')).length) ∧
    (MemoryManager.validateExtractedFact
      (JVal.jobj (JVal.jstr (String.mk (List.replicate 501 'a'))) JVal.jundef
        JVal.jundef JVal.jundef JVal.jundef) = Except.ok none) ∧
    (MemoryManager.validateExtractedFact
      (JVal.jobj (JVal.jstr "x") (JVal.jstr "banana") (JVal.jstr "general")
        JVal.jundef JVal.jundef) = Except.ok (some c6f0)) ∧
    (MemoryManager.validTypes.contains (lowerStr ("banana")) = false) ∧
    (c6f0.type = MemoryType.extracted_fact) ∧
    (0 ≤ c6f0.importance ∧ c6f0.importance ≤ 1 ∧
      ∃ q, c6f0.confidence = some q ∧ 1 / 2 ≤ q ∧ q ≤ 1) ∧
    (MemoryManager.validateAll
        ([] ++ (JVal.jobj JVal.jundef JVal.jundef JVal.jundef JVal.jundef
          JVal.jundef) :: []) =
      MemoryManager.validateAll ([] ++ [])) := by
  have hlen : 500 < (String.mk (List.replicate 501 'a')).length := by
    have h5 : (String.mk (List.replicate 501 'a')).length = 501 := by
      rw [show (String.mk (List.replicate 501 'a')).length =
        (List.replicate 501 'a').length from rfl, List.length_replicate]
    omega
  have hval : MemoryManager.validateExtractedFact
      (JVal.jobj (JVal.jstr "x") (JVal.jstr "banana") (JVal.jstr "general")
        JVal.jundef JVal.jundef) = Except.ok (some c6f0) := by
    rw [validate_eval_ok "x" (JVal.jstr "banana") (JVal.jstr "general")
      JVal.jundef JVal.jundef (some (lowerStr ("banana")))
      (some (lowerStr ("general"))) rfl rfl (by decide) (by decide) (by decide)]
    rw [jsClamp_undef, jsClamp_undef]
    rw [if_neg (by rw [max_eq_left (by norm_num), min_eq_left (by norm_num)]; norm_num)]
    simp only [Except.ok.injEq, Option.some.injEq, MemoryManager.ExtractedFact.mk.injEq,
      c6f0]
    refine ⟨by decide, ?_, by decide, by decide, ?_⟩
    · rw [max_eq_left (by norm_num), min_eq_left (by norm_num)]
    · rw [max_eq_left (by norm_num), min_eq_left (by norm_num)]
  refine ⟨hlen,
    c6_amended.2.2.2.1 (String.mk (List.replicate 501 'a'))
      JVal.jundef JVal.jundef JVal.jundef JVal.jundef hlen,
    hval, by decide,
    c6_amended.2.2.2.2.1 ("x") ("banana") ("general") JVal.jundef JVal.jundef
      c6f0 hval (by decide),
    c6_amended.2.2.2.2.2.2.2.2.1
      (JVal.jobj (JVal.jstr "x") (JVal.jstr "banana") (JVal.jstr "general")
        JVal.jundef JVal.jundef) c6f0 hval,
    c6_amended.2.2.2.2.2.2.2.2.2 [] []
      (JVal.jobj JVal.jundef JVal.jundef JVal.jundef JVal.jundef JVal.jundef)
      (c6_amended.1 JVal.jundef JVal.jundef JVal.jundef JVal.jundef)⟩
